import Mathlib

/-!
# EntropyGuard: verification of the natural-language specification

A shallow embedding, in Lean 4, of the parts of the EntropyGuard code base
that the specification's claims talk about:

* `src/entropyguard/chunking/splitter.py` — the `Chunker` dataclass and its
  `split_text` algorithm (`_split_recursively`, `_merge_segments`);
* `src/entropyguard/cli/pipeline.py` — `calculate_text_hash`,
  `calculate_cost_savings`, and the orchestration in `Pipeline.run`
  (hash-based Stage-1 deduplication, FAISS-backed Stage-2 deduplication,
  validation audit events, stats, error handling);
* `src/entropyguard/cli/main.py` — the CLI parameter validation and the
  automatic text-column detection.

Components of the repository that are *not* part of the source snapshot
(the `sanitization`, `validation` and `deduplication` modules: only their
callers and tests are present) are modelled from the specification's words;
each such definition carries a doc comment starting `Modelled from the spec:`.

Python strings are modelled as `List Char`; Python `int` as `Int` (or `Nat`
where the value is a length); Python `float` thresholds as `ℚ` except for the
`** 0.5` radius computation, which is modelled over `ℝ` with `Real.sqrt`.
Fallible Python code is modelled with `Except String`, the string being the
message a raised exception would carry (`str(e)`).
-/

namespace EntropyGuard

/-! ## Python string primitives (on `List Char`) -/

/-- Characters treated as whitespace by Python's `str.strip()` / `str.split()`
(ASCII part; the Unicode whitespace code points are not needed by any claim). -/
def pyIsSpace (c : Char) : Bool :=
  c = ' ' || c = '\t' || c = '\n' || c = '\r' || c = '\x0b' || c = '\x0c'

/-- Python `s.strip()`: remove leading and trailing whitespace. -/
def pyStrip (s : List Char) : List Char :=
  ((s.dropWhile pyIsSpace).reverse.dropWhile pyIsSpace).reverse

/-- Whether `pat` is an initial segment of `s` (helper for substring search). -/
def leadsWith : List Char → List Char → Bool
  | [], _ => true
  | _ :: _, [] => false
  | a :: as, b :: bs => a = b && leadsWith as bs

/-- Index of the first occurrence of `pat` as a contiguous substring of `s`. -/
def findSub (pat s : List Char) : Option Nat :=
  (List.range (s.length + 1)).find? (fun i => leadsWith pat (s.drop i))

/-- Python `s.split(sep)` for a non-empty separator `sep`, fuel-driven
(`s.length + 1` fuel always suffices because every step consumes at least
`sep.length ≥ 1` characters). -/
def splitOnSepGo (sep : List Char) : Nat → List Char → List (List Char)
  | 0, s => [s]
  | fuel + 1, s =>
    match findSub sep s with
    | none => [s]
    | some i => s.take i :: splitOnSepGo sep fuel (s.drop (i + sep.length))

/-- Python `s.split(sep)` (non-empty `sep`). -/
def splitOnSep (sep s : List Char) : List (List Char) :=
  splitOnSepGo sep (s.length + 1) s

/-- Python `s.split()` (no argument): split on whitespace runs, dropping
empty pieces. -/
def pySplitWs (s : List Char) : List (List Char) :=
  (List.splitOnP (fun c => pyIsSpace c) s).filter (fun w => w ≠ [])

/-- Python `s.lower()` (ASCII case mapping; sufficient for every claim). -/
def pyLower (s : List Char) : List Char := s.map Char.toLower

/-! ## `chunking/splitter.py` — the `Chunker`

The dataclass in the source snapshot has exactly two fields:

```python
@dataclass
class Chunker:
    chunk_size: int = 512
    chunk_overlap: int = 50
```

`split_text` is embedded below as a function of the two fields
(`cs` = `chunk_size`, `ov` = `chunk_overlap`, both `Nat`: `__post_init__`
rejects negative values and `chunk_size = 0`).
-/

/-- Field names of the `Chunker` dataclass in the source snapshot
(`splitter.py`, lines 22–33). There is no `separators` field. -/
def chunkerFieldNames : List String := ["chunk_size", "chunk_overlap"]

/-- Calling `Chunker(...)` with keyword arguments: a keyword that is not a
dataclass field raises `TypeError` (the message text follows CPython ≥ 3.10);
otherwise `__post_init__` (`splitter.py`, lines 35–41) validates the sizes. -/
def chunkerInit (cs ov : Int) (extraKwargs : List String) : Except String Unit :=
  match extraKwargs.find? (fun k => ¬ k ∈ chunkerFieldNames) with
  | some k =>
      .error ("Chunker.__init__() got an unexpected keyword argument '" ++ k ++ "'")
  | none =>
      if cs ≤ 0 then .error "chunk_size must be > 0"
      else if ov < 0 then .error "chunk_overlap must be >= 0"
      else if ov ≥ cs then .error "chunk_overlap must be smaller than chunk_size"
      else .ok ()

/-- The hard fixed-width fallback at the end of `_split_recursively`
(`splitter.py`, lines 136–140): `while start < len: append s[start:start+cs]`.
Fuel-driven; `s.length` fuel suffices when `cs > 0` (the dataclass forbids
`cs = 0`, where the Python loop would not terminate). -/
def hardSplitGo (cs : Nat) : Nat → List Char → List (List Char)
  | 0, _ => []
  | fuel + 1, s =>
    if s = [] then []
    else s.take cs :: hardSplitGo cs fuel (s.drop cs)

/-- Hard fixed-width split of `s` into windows of `cs` characters. -/
def hardSplit (cs : Nat) (s : List Char) : List (List Char) :=
  hardSplitGo cs s.length s

/-- One segment's fate at one separator level of `_split_recursively`
(`splitter.py`, lines 113–126): segments short enough are kept; otherwise the
segment is split on `sep`, keeping it whole when the separator is absent, and
otherwise keeping the stripped non-empty parts. -/
def splitSegmentAt (cs : Nat) (sep seg : List Char) : List (List Char) :=
  if seg.length ≤ cs then [seg]
  else
    let parts := splitOnSep sep seg
    if parts.length = 1 then [seg]
    else (parts.map pyStrip).filter (fun part => part ≠ [])

/-- The separator loop of `_split_recursively` (`splitter.py`, lines 111–128). -/
def splitBySeps (cs : Nat) (seps : List (List Char)) (segs : List (List Char)) :
    List (List Char) :=
  seps.foldl (fun acc sep => acc.flatMap (splitSegmentAt cs sep)) segs

/-- `Chunker._split_recursively` (`splitter.py`, lines 102–142) at the fixed
separator list `["\n\n", "\n", " "]` used by `split_text`. -/
def splitRecursively (cs : Nat) (text : List Char) : List (List Char) :=
  let segs := splitBySeps cs [['\n', '\n'], ['\n'], [' ']] [text]
  segs.flatMap (fun seg => if seg.length ≤ cs then [seg] else hardSplit cs seg)

/-- One step of the fold in `Chunker._merge_segments`
(`splitter.py`, lines 151–174). The state is `(chunks, current)`. -/
def mergeStep (cs ov : Nat) (st : List (List Char) × List Char) (seg0 : List Char) :
    List (List Char) × List Char :=
  let seg := pyStrip seg0
  if seg = [] then st
  else
    let chunks := st.1
    let current := st.2
    if current = [] then (chunks, seg)
    else if current.length + 1 + seg.length ≤ cs then
      (chunks, current ++ [' '] ++ seg)
    else
      let pre := if ov > 0 ∧ current.length > ov
                 then current.drop (current.length - ov) else []
      let combined := if pre ≠ [] then pyStrip (pre ++ [' '] ++ seg) else seg
      (chunks ++ [current], combined)

/-- `Chunker._merge_segments` (`splitter.py`, lines 144–179). -/
def mergeSegments (cs ov : Nat) (segs : List (List Char)) : List (List Char) :=
  let st := segs.foldl (mergeStep cs ov) ([], [])
  if st.2 = [] then st.1 else st.1 ++ [st.2]

/-- `Chunker.split_text` (`splitter.py`, lines 45–58). -/
def splitText (cs ov : Nat) (text : List Char) : List (List Char) :=
  if text = [] then []
  else mergeSegments cs ov (splitRecursively cs text)

/-- The specification's reading of "concatenating all chunks with the
`chunk_overlap`-character overlaps removed": keep the first chunk whole and
drop the first `ov` characters of every later chunk. (Stated from the spec's
words, for comparison with what `splitText` actually produces.) -/
def overlapConcat (ov : Nat) : List (List Char) → List Char
  | [] => []
  | c :: rest => c ++ rest.flatMap (fun d => d.drop ov)

/-! ## `Pipeline.run` — similarity-to-radius conversion (claim C1)

`pipeline.py`, line 317:

```python
distance_threshold = (2.0 * (1.0 - dedup_threshold)) ** 0.5
```
-/

/-- The radius `Pipeline.run` passes to `VectorIndex.find_duplicates`
(`pipeline.py`, line 317): note the `** 0.5`, i.e. a square root is taken. -/
noncomputable def distanceThreshold (dedupThreshold : ℝ) : ℝ :=
  Real.sqrt (2 * (1 - dedupThreshold))

/-! ## `cli/pipeline.py` — data model

A row is modelled as its text payload paired with its `_original_index`
(other passthrough columns play no role in any claim). Stats are the
`stats` dictionary of `Pipeline.run`; audit events are the entries of
`self.audit_events`.
-/

/-- One entry of `self.audit_events` (`pipeline.py`). -/
structure AuditEvent where
  row_index : Int
  reason : String
  details : String
deriving DecidableEq, Repr

/-- A value of the `stats` dictionary (numbers, or the audit-log path). -/
inductive StatVal where
  | num (q : ℚ)
  | str (s : String)
deriving DecidableEq, Repr

/-- The `stats` dictionary, as an insertion-ordered association list; every
key is written at most once per run, so `List.lookup` agrees with the dict. -/
abbrev Stats := List (String × StatVal)

/-- Numeric lookup in `stats` (0 for missing keys; used only for present keys). -/
def statNum (stats : Stats) (k : String) : ℚ :=
  match stats.lookup k with
  | some (.num q) => q
  | _ => 0

/-- The dictionary `Pipeline.run` returns, plus the run's observable side
state: `audit_events` models `self.audit_events` after the call, and
`written` the rows passed to `df.write_ndjson` (`none` if never reached).
The `error` key is present exactly on the failure returns. -/
structure RunResult where
  success : Bool
  output_path : String
  stats : Stats
  error : Option String
  audit_events : List AuditEvent
  written : Option (List (String × Int))
deriving DecidableEq, Repr

/-- The arguments of `Pipeline.run` relevant to the claims.
`required_columns` is the truthiness of the `required_columns` argument
(`if required_columns:`), `text_column` the column name (used in messages). -/
structure RunConfig where
  output_path : String
  text_column : String
  required_columns : Bool
  min_length : Int
  chunk_size : Option Int
  chunk_overlap : Int
  audit_log_path : Option String

/-- The materialized input DataFrame (`lf.collect()`, `pipeline.py` line
160): the text column's values, and — when the input file itself carries an
`_original_index` column — that column's values. `Pipeline.run` attaches
`arange` only when `origIndex` is absent (`pipeline.py`, lines 163–166);
a supplied column is kept untouched, whatever its values. When present,
`origIndex` has the frame's height, i.e. `texts.length` entries (columns of
a polars frame share the frame's height; the model's `zip` below never
sees the mismatched case). -/
structure LoadedFrame where
  texts : List (Option String)
  origIndex : Option (List Int)

/-- The external collaborators of `Pipeline.run`, i.e. repository code not in
the source snapshot plus genuine I/O. `load` is the outcome of
`load_dataset(input_path).collect()` (file I/O); `schemaResult` the outcome of
`DataValidator.validate_schema` (validation module absent from the snapshot):
`none` is success, `some e` a failure whose `.error` field is `e`.
`sanTransform` is the per-row text rewrite of `sanitize_dataframe`
(normalization and PII scrubbing; sanitization module absent).
`hashFn` is the hex digest `xxhash.xxh64(·).hexdigest()` (external library).
`findDuplicates` is the composite `Embedder.embed` + `VectorIndex.add_vectors`
+ `VectorIndex.find_duplicates(distance_threshold)` on the survivor texts
(deduplication module absent); an `.error e` models an exception raised
inside it, with message `e`. `textColPresent` is whether `text_column` is a
column of the DataFrame. -/
structure PipelineEnv where
  load : Except String LoadedFrame
  schemaResult : Option (Option String)
  sanTransform : String → String
  hashFn : String → String
  findDuplicates : List String → Except String (List (List Nat))
  textColPresent : Bool

/-- Python `a or b` for an optional string `a` (used for
`result.error or "fallback"`). -/
def pyOr (a : Option String) (b : String) : String :=
  match a with
  | some s => if s = "" then b else s
  | none => b

/-- The text normalization inside `calculate_text_hash`
(`pipeline.py`, lines 46–48): lowercase, strip, collapse whitespace. -/
def normalizeForHash (s : String) : String :=
  ⟨List.intercalate [' '] (pySplitWs (pyStrip (pyLower s.data)))⟩

/-- `calculate_text_hash` (`pipeline.py`, lines 33–55): the digest of the
normalized text, with the digest function passed in (external library). -/
def calculateTextHash (hashFn : String → String) (text : String) : String :=
  hashFn (normalizeForHash text)

/-- `calculate_cost_savings` (`pipeline.py`, lines 58–83): Python
`round(x, 2)` modelled as round-half-up to two decimals (Python uses float
banker's rounding; no claim depends on tie behaviour). The first two
arguments are unused, as in the source. -/
def calculateCostSavings (exactDupesChars semanticDupesChars totalDroppedChars : Int) :
    ℚ :=
  (((totalDroppedChars : ℚ) / 4 / 1000 * (13 / 100000)) * 100 + 1 / 2).floor / 100

/-! ### Stage 1: exact (hash-based) deduplication (`pipeline.py`, lines 245–296) -/

/-- Text of the row at position `i` (`texts[i]`). -/
def fstAt (rows : List (String × Int)) (i : Nat) : String :=
  (rows.getD i ("", 0)).1

/-- Original index of the row at position `i` (`original_indices[i]`). -/
def sndAt (rows : List (String × Int)) (i : Nat) : Int :=
  (rows.getD i ("", 0)).2

/-- The hash of every row text (`text_hashes`); rows are non-null here
because the sanitizer's `drop` policy ran first. -/
def textHashes (hashFn : String → String) (rows : List (String × Int)) : List String :=
  rows.map (fun r => calculateTextHash hashFn r.1)

/-- The distinct hash values in first-occurrence order: the iteration order
of `hash_to_indices.items()` (`pipeline.py`, lines 258–262). -/
def firstOccurrences (l : List String) : List String :=
  l.foldl (fun acc h => if h ∈ acc then acc else acc ++ [h]) []

/-- The positions whose hash is `v`, in increasing order: the list
`hash_to_indices[v]` (positions are appended in increasing `idx` order, so
the source's `sorted(indices)` is the identity on it). -/
def groupPositions (hs : List String) (v : String) : List Nat :=
  (List.range hs.length).filter (fun i => hs.getD i "" = v)

/-- `exact_duplicate_indices` (`pipeline.py`, lines 265–277): all but the
first member of every hash group. Modelled as a list; its elements are
pairwise distinct (proved below), so its length is the set's size. -/
def exactDupPositions (hs : List String) : List Nat :=
  (firstOccurrences hs).flatMap (fun v => (groupPositions hs v).drop 1)

/-- The `exact_duplicate` audit events (`pipeline.py`, lines 284–289). -/
def stage1Events (hashFn : String → String) (rows : List (String × Int)) :
    List AuditEvent :=
  let hs := textHashes hashFn rows
  (firstOccurrences hs).flatMap (fun v =>
    let g := groupPositions hs v
    (g.drop 1).map (fun j =>
      { row_index := sndAt rows j
        reason := "exact_duplicate"
        details := "Exact duplicate of original row " ++ toString (sndAt rows (g.headD 0))
          ++ " (hash: " ++ (⟨v.data.take 8⟩ : String) ++ "...)" }))

/-- `survivors_indices` (`pipeline.py`, line 292). -/
def stage1Survivors (hashFn : String → String) (rows : List (String × Int)) :
    List Nat :=
  let hs := textHashes hashFn rows
  (List.range rows.length).filter (fun i => ¬ i ∈ exactDupPositions hs)

/-- `df[positions]`: select the rows at the given (in-range) positions. -/
def selectPositions (rows : List (String × Int)) (ps : List Nat) :
    List (String × Int) :=
  ps.filterMap (fun i => rows[i]?)

/-- `exact_dupes_chars` (`pipeline.py`, lines 281–282). -/
def stage1DupChars (hashFn : String → String) (rows : List (String × Int)) : Int :=
  ((exactDupPositions (textHashes hashFn rows)).map
    (fun j => ((fstAt rows j).length : Int))).sum

/-! ### Stage 2: semantic deduplication (`pipeline.py`, lines 298–361)

The duplicate groups come from the spec-modelled `findDuplicates`
collaborator; the orchestration below (sort each group, keep the first
member, audit the rest) is `pipeline.py`, lines 324–353. -/

/-- `semantic_duplicate_indices` (`pipeline.py`, lines 321–334): all but the
first member of each sorted group. (Python's stable `sorted` is
`List.insertionSort (· ≤ ·)`.) -/
def stage2DupPositions (groups : List (List Nat)) : List Nat :=
  groups.flatMap (fun g => (List.insertionSort (· ≤ ·) g).drop 1)

/-- The `semantic_duplicate` audit events (`pipeline.py`, lines 341–346). -/
def stage2Events (rows : List (String × Int)) (groups : List (List Nat)) :
    List AuditEvent :=
  groups.flatMap (fun g =>
    let s := List.insertionSort (· ≤ ·) g
    (s.drop 1).map (fun j =>
      { row_index := sndAt rows j
        reason := "semantic_duplicate"
        details := "Semantic duplicate of original row " ++ toString (sndAt rows (s.headD 0)) }))

/-- `keep_semantic_indices` (`pipeline.py`, lines 349–352). -/
def stage2Survivors (n : Nat) (groups : List (List Nat)) : List Nat :=
  (List.range n).filter (fun i => ¬ i ∈ stage2DupPositions groups)

/-- `semantic_dupes_chars` (`pipeline.py`, lines 337–339). -/
def stage2DupChars (rows : List (String × Int)) (groups : List (List Nat)) : Int :=
  ((stage2DupPositions groups).map (fun j => ((fstAt rows j).length : Int))).sum

/-! ### Sanitization and validation (modules absent from the snapshot) -/

/-- Modelled from the spec: `sanitize_dataframe` with
`handle_missing="drop"` removes rows whose text is null or empty after
trimming (§4.3(e)) and rewrites the surviving texts by the per-row
transform (normalization, PII scrubbing — `transform`). It always succeeds
for the fixed valid configuration `Pipeline.run` passes. -/
def sanitizeRows (transform : String → String) (rows : List (Option String × Int)) :
    List (String × Int) :=
  rows.filterMap (fun r =>
    match r.1 with
    | none => none
    | some t => if pyStrip t.data = [] then none else some (transform t, r.2))

/-- The audit event the validation precompute loop appends for one row
(`pipeline.py`, lines 384–423); the `value is None` branch is unreachable
here because the sanitizer's `drop` policy removed null texts. -/
def validationEvent (minLength : Int) (r : String × Int) : Option AuditEvent :=
  let stripped := pyStrip r.1.data
  if stripped.length = 0 then
    some { row_index := r.2, reason := "Validation: empty_or_null", details := "len=0" }
  else if minLength > 0 ∧ (stripped.length : Int) < minLength then
    some { row_index := r.2, reason := "Validation: too_short",
           details := "len=" ++ toString stripped.length
             ++ " (min_length=" ++ toString minLength ++ ")" }
  else none

/-- Modelled from the spec: `DataValidator.validate_data` keeps a row iff its
text is non-empty after trimming and its trimmed length is not below
`min_length` (§4.8; the repository's validation tests agree). -/
def validateKeep (minLength : Int) (t : String) : Bool :=
  let stripped := pyStrip t.data
  ¬ (stripped.length = 0 ∨ (stripped.length : Int) < minLength)

/-- Modelled from the spec: the DataFrame `DataValidator.validate_data`
returns (it always succeeds with a filtered frame). -/
def validateData (minLength : Int) (rows : List (String × Int)) :
    List (String × Int) :=
  rows.filter (fun r => validateKeep minLength r.1)

/-- `validation_dropped_chars` (`pipeline.py`, lines 382–423): the original
(pre-strip) length of every row the precompute loop flags. -/
def validationDroppedChars (minLength : Int) (rows : List (String × Int)) : Int :=
  (rows.map (fun r =>
    let stripped := pyStrip r.1.data
    if stripped.length = 0 then (r.1.length : Int)
    else if minLength > 0 ∧ (stripped.length : Int) < minLength then (r.1.length : Int)
    else 0)).sum

/-! ### The orchestration of `Pipeline.run` (`pipeline.py`, lines 115–493)

Each early `return {"success": False, ...}` — and the top-level
`except Exception` handler — is a `mkFail`; the stage boundaries of the
source become the chain `runP → runChunking → runDedupEntry → runStage1 →
runStage2 → finishRun`, each function picking up exactly where the previous
source block ends. -/

/-- A failure dictionary of `Pipeline.run`: `success=False`, the stats
accumulated so far, `error` set to the message; `audit_events` is the
instance state accumulated so far (it is not reset on failure). -/
def mkFail (outputPath : String) (stats : Stats) (ev : List AuditEvent)
    (msg : String) : RunResult :=
  { success := false, output_path := outputPath, stats := stats,
    error := some msg, audit_events := ev, written := none }

/-- `Chunker.chunk_dataframe` (`splitter.py`, lines 62–98): explode each row
into one row per chunk, duplicating `_original_index`. (Rows whose text
yields no chunks are dropped; the polars `explode` of an empty list would
instead keep one null row, but this point is unreachable: `Pipeline.run`
raises a `TypeError` before any `Chunker` exists, see `chunkerInit`.) -/
def chunkDataframe (cs ov : Nat) (rows : List (String × Int)) :
    List (String × Int) :=
  rows.flatMap (fun r => (splitText cs ov r.1.data).map (fun c => ((⟨c⟩ : String), r.2)))

/-- Steps 6–8 of `Pipeline.run` (`pipeline.py`, lines 363–485): the
`duplicates_removed` stat, the validation audit precompute, the
(spec-modelled) validator, the output write and audit-log flush (external
I/O, modelled as succeeding), cost savings, and the final statistics. -/
def finishRun (cfg : RunConfig) (textColPresent : Bool) (stats : Stats)
    (ev : List AuditEvent) (df : List (String × Int)) (exactChars semChars : Int) :
    RunResult :=
  let stats1 := stats ++ [("duplicates_removed",
    .num (statNum stats "exact_duplicates_removed"
      + statNum stats "semantic_duplicates_removed"))]
  -- source guard: `if text_column not in validation_base_df.columns: return` —
  -- stated positively here
  if textColPresent then
    let evVal := df.filterMap (validationEvent cfg.min_length)
    let evAll := ev ++ evVal
    let dfFinal := validateData cfg.min_length df
    let stats2 := stats1 ++ [("after_validation_rows", .num (dfFinal.length : ℚ))]
    let stats3 := stats2 ++ (match cfg.audit_log_path with
      | some p => [("audit_log_path", .str p), ("audit_events", .num (evAll.length : ℚ))]
      | none => [])
    let valChars := validationDroppedChars cfg.min_length df
    let totalChars := exactChars + semChars + valChars
    let savings := calculateCostSavings exactChars semChars totalChars
    let stats4 := stats3 ++ [("final_rows", .num (dfFinal.length : ℚ)),
      ("total_dropped", .num (statNum stats3 "original_rows" - (dfFinal.length : ℚ))),
      ("exact_dupes_chars", .num (exactChars : ℚ)),
      ("semantic_dupes_chars", .num (semChars : ℚ)),
      ("total_dropped_chars", .num (totalChars : ℚ)),
      ("estimated_api_savings", .num savings)]
    { success := true, output_path := cfg.output_path, stats := stats4,
      error := none, audit_events := evAll, written := some dfFinal }
  else
    mkFail cfg.output_path stats1 ev
      ("Text column '" ++ cfg.text_column ++ "' not found before validation")

/-- Stage 2 of `Pipeline.run` (`pipeline.py`, lines 298–361). An exception
inside the embedder/index (`findDuplicates = .error e`) reaches the
top-level handler with the Stage-1 audit events already recorded. -/
def runStage2 (env : PipelineEnv) (cfg : RunConfig) (stats : Stats)
    (ev1 : List AuditEvent) (surv1 : List (String × Int)) (exactChars : Int) :
    RunResult :=
  if surv1.length > 0 then
    match env.findDuplicates (surv1.map Prod.fst) with
    | .error e => mkFail cfg.output_path stats ev1 e
    | .ok groups =>
        let surv2 := selectPositions surv1 (stage2Survivors surv1.length groups)
        finishRun cfg env.textColPresent
          (stats ++ [("after_deduplication_rows", .num (surv2.length : ℚ)),
            ("semantic_duplicates_removed",
              .num ((stage2DupPositions groups).length : ℚ))])
          (ev1 ++ stage2Events surv1 groups) surv2 exactChars
          (stage2DupChars surv1 groups)
  else
    finishRun cfg env.textColPresent
      (stats ++ [("after_deduplication_rows", .num (surv1.length : ℚ)),
        ("semantic_duplicates_removed", .num 0)])
      ev1 surv1 exactChars 0

/-- Stage 1 of `Pipeline.run` (`pipeline.py`, lines 245–296). -/
def runStage1 (env : PipelineEnv) (cfg : RunConfig) (stats : Stats)
    (df1 : List (String × Int)) : RunResult :=
  let hs := textHashes env.hashFn df1
  let surv1 := selectPositions df1 (stage1Survivors env.hashFn df1)
  runStage2 env cfg
    (stats ++ [("after_exact_dedup_rows", .num (surv1.length : ℚ)),
      ("exact_duplicates_removed", .num ((exactDupPositions hs).length : ℚ))])
    (stage1Events env.hashFn df1) surv1 (stage1DupChars env.hashFn df1)

/-- Step 5's guard (`pipeline.py`, lines 237–243): the text column must
still exist before deduplication. -/
def runDedupEntry (env : PipelineEnv) (cfg : RunConfig) (stats : Stats)
    (df1 : List (String × Int)) : RunResult :=
  if env.textColPresent then runStage1 env cfg stats df1
  else
    mkFail cfg.output_path stats []
      ("Text column '" ++ cfg.text_column ++ "' not found after sanitization")

/-- Step 4 (`pipeline.py`, lines 217–234): when `chunk_size > 0` the source
constructs `Chunker(chunk_size=..., chunk_overlap=..., separators=...)`;
the `separators` keyword raises `TypeError`, caught by the top-level
handler. The `.ok` continuation is therefore unreachable. -/
def runChunking (env : PipelineEnv) (cfg : RunConfig) (stats : Stats)
    (dfSan : List (String × Int)) : RunResult :=
  match cfg.chunk_size with
  | some k =>
      if 0 < k then
        match chunkerInit k cfg.chunk_overlap ["separators"] with
        | .error e => mkFail cfg.output_path stats [] e
        | .ok _ =>
            let dfC := chunkDataframe k.toNat cfg.chunk_overlap.toNat dfSan
            runDedupEntry env cfg
              (stats ++ [("after_chunking_rows", .num (dfC.length : ℚ))]) dfC
      else
        runDedupEntry env cfg
          (stats ++ [("after_chunking_rows", .num (dfSan.length : ℚ))]) dfSan
  | none =>
      runDedupEntry env cfg
        (stats ++ [("after_chunking_rows", .num (dfSan.length : ℚ))]) dfSan

/-- `Pipeline.run` (`pipeline.py`, lines 115–493): load, attach
`_original_index = arange(height)` — but only when the input does not
already carry an `_original_index` column (`pipeline.py`, lines 163–166);
a supplied column is used as-is — reject empty input, optional schema
validation, sanitization, then the stage chain. -/
def runP (env : PipelineEnv) (cfg : RunConfig) : RunResult :=
  match env.load with
  | .error e => mkFail cfg.output_path [] [] e
  | .ok input =>
      let n := input.texts.length
      let df0 : List (Option String × Int) :=
        match input.origIndex with
        | some idxs => input.texts.zip idxs
        | none => input.texts.enum.map (fun p => (p.2, (p.1 : Int)))
      let stats : Stats :=
        [("loaded_rows", .num (n : ℚ)), ("original_rows", .num (n : ℚ))]
      if n = 0 then mkFail cfg.output_path stats [] "Input dataset is empty"
      else
        match (if cfg.required_columns then env.schemaResult else none) with
        | some e => mkFail cfg.output_path stats [] (pyOr e "Schema validation failed")
        | none =>
            let dfSan := sanitizeRows env.sanTransform df0
            runChunking env cfg
              (stats ++ [("after_sanitization_rows", .num (dfSan.length : ℚ))]) dfSan

/-- The audit reasons `Pipeline.run` actually writes for dropped rows
(duplicate and validation reasons). -/
def dupValReasons : List String :=
  ["exact_duplicate", "semantic_duplicate",
   "Validation: empty_or_null", "Validation: too_short"]

/-- The closed reason enum claimed by the spec (§3). -/
def specReasonEnum : List String :=
  ["exact_duplicate", "semantic_duplicate", "validation_empty_or_null",
   "validation_too_short", "schema_missing_column", "sanitization_dropped_null"]

/-- Number of audit events with a duplicate or validation reason. -/
def countDupVal (ev : List AuditEvent) : Nat :=
  (ev.filter (fun e => e.reason ∈ dupValReasons)).length

/-! ## `cli/main.py` — parameter validation and text-column auto-detection -/

/-- The startup parameter validation of `main` (`main.py`, lines 284–320),
reached after input handling: each invalid parameter prints an error and
returns the exit code 1 (`some 1`); `none` means validation passed. -/
def cliValidateParams (dedupThreshold : ℚ) (minLength : Int)
    (chunkSize : Option Int) (chunkOverlap : Int) : Option Int :=
  if ¬ (0 ≤ dedupThreshold ∧ dedupThreshold ≤ 1) then some 1
  else if minLength < 0 then some 1
  else
    match chunkSize with
    | some k =>
        if k ≤ 0 then some 1
        else if chunkOverlap < 0 then some 1
        else if chunkOverlap ≥ k then some 1
        else none
    | none => none

/-- A column of the materialized 100-row sample `lf.head(100).collect()`
(`main.py`, line 338): its name, whether its dtype is `pl.Utf8`, and its
cells (full column; the model takes the 100-row head itself). -/
structure PyColumn where
  name : String
  isUtf8 : Bool
  cells : List (Option String)
deriving DecidableEq

/-- `float(df_head[col].str.len_chars().mean())`: the mean character length
over the non-null entries of the 100-row sample; `none` when every sampled
entry is null (polars `mean()` returns `None` there, and `float(None)`
raises `TypeError`). -/
def colMean (c : PyColumn) : Option ℚ :=
  let lens := (c.cells.take 100).filterMap (fun v => v.map (fun s => (s.length : ℚ)))
  if lens = [] then none else some (lens.sum / lens.length)

/-- The mean with default 0, for stating the selection property. -/
def colMeanD (c : PyColumn) : ℚ := (colMean c).getD 0

/-- One iteration of the detection loop (`main.py`, lines 353–361): columns
with an empty sample are skipped; an all-null column raises `TypeError`
(caught by the surrounding handler, exit 1); otherwise the running best is
replaced only on a strictly larger average. -/
def autoDetectStep (st : String × ℚ) (c : PyColumn) : Except String (String × ℚ) :=
  if (c.cells.take 100).length = 0 then .ok st
  else
    match colMean c with
    | none => .error "float() argument must be a string or a real number, not 'NoneType'"
    | some avg => if avg > st.2 then .ok (c.name, avg) else .ok st

/-- The text-column auto-detection of `main` (`main.py`, lines 331–363):
filter the Utf8 columns, start from `(string_cols[0], -1.0)`, fold the
detection loop. `.error` models the paths that print an error and return
exit code 1. -/
def autoDetectTextColumn (cols : List PyColumn) : Except String String :=
  match cols.filter (fun c => c.isUtf8) with
  | [] => .error "Unable to auto-detect a text column (no string columns found)."
  | c0 :: rest =>
      match (c0 :: rest).foldlM autoDetectStep (c0.name, (-1 : ℚ)) with
      | .error e => .error e
      | .ok st => .ok st.1

/-- The exception-free restatement of one detection-loop iteration, used to
relate the monadic fold to a pure fold when no column raises. -/
def autoDetectPure (st : String × ℚ) (c : PyColumn) : String × ℚ :=
  if colMeanD c > st.2 then (c.name, colMeanD c) else st

/-! ## Concrete inputs used by the witnesses and counterexamples -/

/-- A 60-character text (long enough for the default `min_length = 50`). -/
def longText : String := ⟨List.replicate 60 'a'⟩

/-- A second, distinct 60-character text. -/
def longTextB : String := ⟨List.replicate 60 'b'⟩

/-- A pipeline configuration with chunking disabled and default settings. -/
def cfgPlain : RunConfig :=
  { output_path := "out.ndjson", text_column := "text", required_columns := false,
    min_length := 50, chunk_size := none, chunk_overlap := 50,
    audit_log_path := none }

/-- An environment whose external collaborators behave trivially:
sanitizer transform and digest are the identity, the semantic index finds
no duplicate groups. -/
def envBase : PipelineEnv :=
  { load := .ok { texts := [some longText, none], origIndex := none },
    schemaResult := none, sanTransform := id,
    hashFn := id, findDuplicates := fun _ => .ok [], textColPresent := true }

/-- Input with an exact duplicate, a short text and a null row. -/
def envDup : PipelineEnv :=
  { envBase with
    load := .ok { texts := [some longText, some "hi", some longText, none],
                  origIndex := none } }

/-- An environment whose embedder raises an exception with an empty message
(e.g. a bare `RuntimeError()`); `str(e)` is then the empty string. -/
def envEmptyErr : PipelineEnv :=
  { envBase with
    load := .ok { texts := [some longText], origIndex := none }
    findDuplicates := fun _ => .error "" }

/-- An input that carries its own `_original_index` column, out of order:
two identical long texts with indices 7 and 3. `Pipeline.run` keeps the
supplied column (`pipeline.py`, lines 163–166). -/
def envOwnIdx : PipelineEnv :=
  { envBase with
    load := .ok { texts := [some longText, some longText],
                  origIndex := some [7, 3] } }

/-- An environment for the chunking claim (chunking enabled in the config). -/
def cfgChunked : RunConfig := { cfgPlain with chunk_size := some 5, chunk_overlap := 1 }

/-- A sample table for the auto-detection witness: an integer column and two
string columns, the second string column having the larger average length. -/
def colsSample : List PyColumn :=
  [{ name := "id", isUtf8 := false, cells := [some "1", some "2"] },
   { name := "tag", isUtf8 := true, cells := [some "xy", none] },
   { name := "text", isUtf8 := true, cells := [some "hello", some "worlds!"] }]

/-- The canonical-survivor property of the two deduplication stages of
`Pipeline.run` over a row list (text, `_original_index`): in every Stage-1
hash group and every Stage-2 semantic group (the latter under the grouping
contract of `find_duplicates`: groups pairwise disjoint, duplicate-free,
in range), the kept member is the one with the smallest original index and
every other member is removed. -/
def canonicalSurvivorProp (hashFn : String → String)
    (rows : List (String × Int)) : Prop :=
  (∀ v : String,
    groupPositions (textHashes hashFn rows) v ≠ [] →
      (groupPositions (textHashes hashFn rows) v).headD 0
          ∈ stage1Survivors hashFn rows ∧
      ∀ j ∈ groupPositions (textHashes hashFn rows) v,
        j ≠ (groupPositions (textHashes hashFn rows) v).headD 0 →
          ¬ j ∈ stage1Survivors hashFn rows ∧
          sndAt rows ((groupPositions (textHashes hashFn rows) v).headD 0)
            < sndAt rows j)
  ∧
  (∀ groups : List (List Nat), groups.Pairwise List.Disjoint →
    (∀ g ∈ groups, g.Nodup) → (∀ g ∈ groups, ∀ x ∈ g, x < rows.length) →
    ∀ g ∈ groups, g ≠ [] →
      (List.insertionSort (· ≤ ·) g).headD 0 ∈ stage2Survivors rows.length groups ∧
      ∀ j ∈ g, j ≠ (List.insertionSort (· ≤ ·) g).headD 0 →
        ¬ j ∈ stage2Survivors rows.length groups ∧
        sndAt rows ((List.insertionSort (· ≤ ·) g).headD 0) < sndAt rows j)

/-- Concrete rows for the canonical-survivor witness: two exact duplicates
and a distinct text, with strictly increasing original indices. -/
def rowsW : List (String × Int) := [("dup", 0), ("dup", 1), ("other", 5)]

/-- The grouping contract of the (spec-modelled) `find_duplicates`: the spec
(§3, DuplicateGroup) makes duplicate groups equivalence classes over the
indexed vectors, so any groups returned are pairwise disjoint,
duplicate-free lists of in-range positions. -/
def ValidGrouping (find : List String → Except String (List (List Nat))) : Prop :=
  ∀ ts groups, find ts = .ok groups →
    groups.Pairwise List.Disjoint ∧ (∀ g ∈ groups, g.Nodup) ∧
    (∀ g ∈ groups, ∀ x ∈ g, x < ts.length)

/-! ## Supporting lemmas -/

/-- Removing a `Nodup` selection `D` from a `Nodup` list `l` by filtering
drops exactly `D.length` elements. -/
lemma length_filter_not_mem {l : List Nat} (D : List Nat) (hl : l.Nodup)
    (hD : D.Nodup) (hsub : ∀ x ∈ D, x ∈ l) :
    (l.filter (fun i => ¬ i ∈ D)).length + D.length = l.length := by
  induction D generalizing l with
  | nil => simp
  | cons d D ih =>
      have hdD : d ∉ D := (List.nodup_cons.mp hD).1
      have hDn : D.Nodup := (List.nodup_cons.mp hD).2
      have hdl : d ∈ l := hsub d (by simp)
      have hstep : l.filter (fun i => ¬ i ∈ (d :: D)) =
          (l.filter (fun i => i ≠ d)).filter (fun i => ¬ i ∈ D) := by
        rw [List.filter_filter]
        apply List.filter_congr
        intro a _
        by_cases h1 : a = d <;> by_cases h2 : a ∈ D <;> simp [h1, h2]
      have herase : l.filter (fun i => i ≠ d) = l.erase d := by
        rw [hl.erase_eq_filter]
        apply List.filter_congr
        intro a _
        by_cases h : a = d <;> simp [h, bne]
      have hlen : (l.filter (fun i => i ≠ d)).length = l.length - 1 := by
        rw [herase]; exact List.length_erase_of_mem hdl
      have hsub2 : ∀ x ∈ D, x ∈ l.filter (fun i => i ≠ d) := by
        intro x hx
        refine List.mem_filter.mpr ⟨hsub x (by simp [hx]), ?_⟩
        have : x ≠ d := fun he => hdD (he ▸ hx)
        simp [this]
      have hnd2 : (l.filter (fun i => i ≠ d)).Nodup := hl.filter _
      have := ih hnd2 hDn hsub2
      have hpos : 1 ≤ l.length := List.length_pos.mpr (List.ne_nil_of_mem hdl)
      rw [hstep, List.length_cons]
      omega

/-- Membership in `firstOccurrences` is membership in the original list. -/
lemma mem_firstOccurrences {v : String} {l : List String} :
    v ∈ firstOccurrences l ↔ v ∈ l := by
  have aux : ∀ (l acc : List String),
      v ∈ l.foldl (fun acc h => if h ∈ acc then acc else acc ++ [h]) acc ↔
        v ∈ acc ∨ v ∈ l := by
    intro l
    induction l with
    | nil => intro acc; simp
    | cons a l ih =>
        intro acc
        by_cases ha : a ∈ acc
        · rw [List.foldl_cons, if_pos ha, ih]
          constructor
          · rintro (h | h)
            · exact Or.inl h
            · exact Or.inr (by simp [h])
          · rintro (h | h)
            · exact Or.inl h
            · rcases List.mem_cons.mp h with rfl | h
              · exact Or.inl ha
              · exact Or.inr h
        · rw [List.foldl_cons, if_neg ha, ih]
          constructor
          · rintro (h | h)
            · rcases List.mem_append.mp h with h | h
              · exact Or.inl h
              · simp at h; simp [h]
            · simp [h]
          · rintro (h | h)
            · exact Or.inl (List.mem_append.mpr (Or.inl h))
            · rcases List.mem_cons.mp h with rfl | h
              · exact Or.inl (List.mem_append.mpr (Or.inr (by simp)))
              · exact Or.inr h
  rw [firstOccurrences, aux]
  simp

/-- The distinct-hash list has no duplicates. -/
lemma nodup_firstOccurrences (l : List String) : (firstOccurrences l).Nodup := by
  have aux : ∀ (l acc : List String), acc.Nodup →
      (l.foldl (fun acc h => if h ∈ acc then acc else acc ++ [h]) acc).Nodup := by
    intro l
    induction l with
    | nil => intro acc h; simpa using h
    | cons a l ih =>
        intro acc hacc
        by_cases ha : a ∈ acc
        · rw [List.foldl_cons, if_pos ha]; exact ih acc hacc
        · rw [List.foldl_cons, if_neg ha]
          exact ih _ (by simp [List.nodup_append, hacc, ha])
  exact aux l [] List.nodup_nil

/-- Positions of one hash group, characterized. -/
lemma mem_groupPositions {hs : List String} {v : String} {j : Nat} :
    j ∈ groupPositions hs v ↔ j < hs.length ∧ hs.getD j "" = v := by
  simp [groupPositions, List.mem_filter, List.mem_range]

/-- A hash group is strictly increasing. -/
lemma groupPositions_pairwise (hs : List String) (v : String) :
    (groupPositions hs v).Pairwise (· < ·) :=
  (List.pairwise_lt_range hs.length).filter _

/-- A hash group has no duplicate positions. -/
lemma groupPositions_nodup (hs : List String) (v : String) :
    (groupPositions hs v).Nodup :=
  (groupPositions_pairwise hs v).imp Nat.ne_of_lt

/-- Groups of different hash values are disjoint. -/
lemma groupPositions_disjoint {hs : List String} {v w : String} (hvw : v ≠ w) :
    (groupPositions hs v).Disjoint (groupPositions hs w) := by
  intro j hj hj2
  exact hvw ((mem_groupPositions.mp hj).2 ▸ (mem_groupPositions.mp hj2).2 ▸ rfl)

/-- The exact-duplicate positions are pairwise distinct (so the length of
the modelled list is the size of the Python set). -/
lemma nodup_exactDupPositions (hs : List String) : (exactDupPositions hs).Nodup := by
  rw [exactDupPositions, List.nodup_flatMap]
  constructor
  · intro v _
    exact List.Nodup.sublist (List.drop_sublist 1 _) (groupPositions_nodup hs v)
  · have := nodup_firstOccurrences hs
    refine this.imp ?_
    intro v w hvw
    exact List.disjoint_of_subset_left (List.drop_subset 1 _)
      (List.disjoint_of_subset_right (List.drop_subset 1 _)
        (groupPositions_disjoint hvw))

/-- Exact-duplicate positions are in range. -/
lemma exactDupPositions_lt {hs : List String} {j : Nat}
    (h : j ∈ exactDupPositions hs) : j < hs.length := by
  rw [exactDupPositions, List.mem_flatMap] at h
  obtain ⟨v, _, hv⟩ := h
  exact (mem_groupPositions.mp (List.drop_subset 1 _ hv)).1

/-- Stage 1 records exactly one audit event per removed position. -/
lemma stage1Events_length (hashFn : String → String) (rows : List (String × Int)) :
    (stage1Events hashFn rows).length
      = (exactDupPositions (textHashes hashFn rows)).length := by
  simp only [stage1Events, exactDupPositions, List.length_flatMap]
  congr 1
  apply List.map_congr_left
  intro v _
  simp [Function.comp]

/-- Stage-1 counting: events plus surviving positions cover every row. -/
lemma stage1_count (hashFn : String → String) (rows : List (String × Int)) :
    (stage1Events hashFn rows).length + (stage1Survivors hashFn rows).length
      = rows.length := by
  have hlen : (textHashes hashFn rows).length = rows.length := by simp [textHashes]
  rw [stage1Events_length, stage1Survivors]
  have h := length_filter_not_mem (l := List.range rows.length)
    (exactDupPositions (textHashes hashFn rows)) (List.nodup_range _)
    (nodup_exactDupPositions _)
    (fun x hx => List.mem_range.mpr (hlen ▸ exactDupPositions_lt hx))
  rw [List.length_range] at h
  omega

/-- Stage 2 records exactly one audit event per entry of the removal list. -/
lemma stage2Events_length (rows : List (String × Int)) (groups : List (List Nat)) :
    (stage2Events rows groups).length = (stage2DupPositions groups).length := by
  simp only [stage2Events, stage2DupPositions, List.length_flatMap]
  congr 1
  apply List.map_congr_left
  intro g _
  simp [Function.comp]

/-- With valid duplicate groups (pairwise disjoint, duplicate-free), the
removal list has no repeated positions. -/
lemma nodup_stage2DupPositions (groups : List (List Nat))
    (hnd : ∀ g ∈ groups, g.Nodup) (hdisj : groups.Pairwise List.Disjoint) :
    (stage2DupPositions groups).Nodup := by
  rw [stage2DupPositions, List.nodup_flatMap]
  constructor
  · intro g hg
    exact List.Nodup.sublist (List.drop_sublist 1 _)
      ((List.perm_insertionSort (· ≤ ·) g).nodup_iff.mpr (hnd g hg))
  · refine hdisj.imp ?_
    intro g g' hgg'
    refine List.disjoint_of_subset_left ?_ (List.disjoint_of_subset_right ?_ hgg')
    · exact fun x hx => (List.perm_insertionSort (· ≤ ·) g).subset (List.drop_subset 1 _ hx)
    · exact fun x hx => (List.perm_insertionSort (· ≤ ·) g').subset (List.drop_subset 1 _ hx)

/-- Removal-list positions come from the groups. -/
lemma stage2DupPositions_lt {n : Nat} {groups : List (List Nat)} {j : Nat}
    (hlt : ∀ g ∈ groups, ∀ x ∈ g, x < n) (h : j ∈ stage2DupPositions groups) :
    j < n := by
  rw [stage2DupPositions, List.mem_flatMap] at h
  obtain ⟨g, hg, hj⟩ := h
  exact hlt g hg j ((List.perm_insertionSort (· ≤ ·) g).subset (List.drop_subset 1 _ hj))

/-- Stage-2 counting under the grouping contract. -/
lemma stage2_count (rows : List (String × Int)) (n : Nat) (groups : List (List Nat))
    (hnd : ∀ g ∈ groups, g.Nodup) (hdisj : groups.Pairwise List.Disjoint)
    (hlt : ∀ g ∈ groups, ∀ x ∈ g, x < n) :
    (stage2Events rows groups).length + (stage2Survivors n groups).length = n := by
  rw [stage2Events_length, stage2Survivors]
  have h := length_filter_not_mem (l := List.range n) (stage2DupPositions groups)
    (List.nodup_range _) (nodup_stage2DupPositions groups hnd hdisj)
    (fun x hx => List.mem_range.mpr (stage2DupPositions_lt hlt hx))
  rw [List.length_range] at h
  omega

/-- The validation precompute flags a row iff the (spec-modelled) validator
drops it. -/
lemma validationEvent_none_iff (m : Int) (r : String × Int) :
    validationEvent m r = none ↔ validateKeep m r.1 = true := by
  unfold validationEvent validateKeep
  by_cases h0 : (pyStrip r.1.data).length = 0
  · simp [h0]
  · by_cases h1 : m > 0 ∧ ((pyStrip r.1.data).length : Int) < m
    · simp [h0, h1]
    · simp [h0, h1]
      omega

/-- Validation counting: one audit event per dropped row. -/
lemma validation_count (m : Int) (rows : List (String × Int)) :
    (rows.filterMap (validationEvent m)).length + (validateData m rows).length
      = rows.length := by
  rw [validateData]
  induction rows with
  | nil => simp
  | cons r rows ih =>
      rcases h : validationEvent m r with _ | e
      · have hk : validateKeep m r.1 = true := (validationEvent_none_iff m r).mp h
        simp only [List.filterMap_cons, h, List.filter_cons, hk, if_pos,
          List.length_cons]
        omega
      · have hk : validateKeep m r.1 = false := by
          cases hkk : validateKeep m r.1
          · rfl
          · rw [(validationEvent_none_iff m r).mpr hkk] at h; cases h
        simp only [List.filterMap_cons, h, List.filter_cons, hk,
          Bool.false_eq_true, if_neg, List.length_cons, not_false_iff]
        omega

/-- Every Stage-1 event is an `exact_duplicate` event. -/
lemma stage1Events_reason {hashFn : String → String} {rows : List (String × Int)}
    {e : AuditEvent} (h : e ∈ stage1Events hashFn rows) :
    e.reason = "exact_duplicate" := by
  rw [stage1Events, List.mem_flatMap] at h
  obtain ⟨v, _, hv⟩ := h
  rw [List.mem_map] at hv
  obtain ⟨j, _, rfl⟩ := hv
  rfl

/-- Every Stage-2 event is a `semantic_duplicate` event. -/
lemma stage2Events_reason {rows : List (String × Int)} {groups : List (List Nat)}
    {e : AuditEvent} (h : e ∈ stage2Events rows groups) :
    e.reason = "semantic_duplicate" := by
  rw [stage2Events, List.mem_flatMap] at h
  obtain ⟨g, _, hg⟩ := h
  rw [List.mem_map] at hg
  obtain ⟨j, _, rfl⟩ := hg
  rfl

/-- Every validation event carries one of the two validation reasons. -/
lemma validationEvent_reason {m : Int} {r : String × Int} {e : AuditEvent}
    (h : validationEvent m r = some e) :
    e.reason = "Validation: empty_or_null" ∨ e.reason = "Validation: too_short" := by
  unfold validationEvent at h
  by_cases h0 : (pyStrip r.1.data).length = 0
  · rw [if_pos h0] at h
    cases h
    exact Or.inl rfl
  · rw [if_neg h0] at h
    by_cases h1 : m > 0 ∧ ((pyStrip r.1.data).length : Int) < m
    · rw [if_pos h1] at h
      cases h
      exact Or.inr rfl
    · rw [if_neg h1] at h
      cases h

/-- Selecting the positions of `range l.length` that pass a filter yields a
subsequence of `l` (hence preserves strict monotonicity of any projection). -/
lemma selectFilter_sublist (l : List (String × Int)) (p : Nat → Bool) :
    (((List.range l.length).filter p).filterMap (fun i => l[i]?)).Sublist l := by
  induction l generalizing p with
  | nil => simp
  | cons a t ih =>
      rw [List.length_cons, List.range_succ_eq_map, List.filter_cons]
      have hcomp : ((fun i => (a :: t)[i]?) ∘ Nat.succ) = (fun i : Nat => t[i]?) := by
        funext i
        simp
      have hmap : List.filterMap (fun i => (a :: t)[i]?)
          (((List.range t.length).map Nat.succ).filter p)
            = ((List.range t.length).filter (p ∘ Nat.succ)).filterMap
                (fun i => t[i]?) := by
        rw [List.filter_map, List.filterMap_map, hcomp]
      by_cases hp : p 0
      · rw [if_pos hp]
        rw [List.filterMap_cons]
        simp only [List.getElem?_cons_zero]
        rw [hmap]
        exact List.Sublist.cons₂ a (ih (p ∘ Nat.succ))
      · rw [if_neg hp, hmap]
        exact List.Sublist.cons a (ih (p ∘ Nat.succ))

/-- Strict monotonicity of the original-index column, pointwise. -/
lemma sndAt_lt_of_pairwise {rows : List (String × Int)}
    (h : (rows.map Prod.snd).Pairwise (· < ·)) {i j : Nat} (hij : i < j)
    (hj : j < rows.length) : sndAt rows i < sndAt rows j := by
  have hi : i < rows.length := lt_trans hij hj
  have hm := List.pairwise_iff_getElem.mp h i j (by simpa) (by simpa) hij
  simpa [sndAt, List.getD_eq_getElem, hi, hj] using hm

/-- The head of a non-empty list is a member (via `headD`). -/
lemma headD_mem {g : List Nat} (h : g ≠ []) : g.headD 0 ∈ g := by
  cases g with
  | nil => exact absurd rfl h
  | cons a t => simp

/-- In a strictly increasing list, the head is strictly below every other
member. -/
lemma headD_lt_of_pairwise {g : List Nat} (hp : g.Pairwise (· < ·))
    {j : Nat} (hj : j ∈ g) (hne : j ≠ g.headD 0) : g.headD 0 < j := by
  cases g with
  | nil => cases hj
  | cons a t =>
      rcases List.mem_cons.mp hj with rfl | hjt
      · exact absurd rfl hne
      · exact (List.pairwise_cons.mp hp).1 j hjt

/-- Membership in a non-empty list beyond its head is membership in its tail. -/
lemma mem_drop_one_of_ne_headD {g : List Nat} {j : Nat} (hj : j ∈ g)
    (hne : j ≠ g.headD 0) : j ∈ g.drop 1 := by
  cases g with
  | nil => cases hj
  | cons a t =>
      rcases List.mem_cons.mp hj with rfl | hjt
      · exact absurd rfl hne
      · simpa using hjt

/-- A duplicate-free list does not contain its head past position 0. -/
lemma headD_not_mem_drop_one {g : List Nat} (hnd : g.Nodup) :
    ¬ g.headD 0 ∈ g.drop 1 := by
  cases g with
  | nil => simp
  | cons a t =>
      intro h
      exact (List.nodup_cons.mp hnd).1 (by simpa using h)

/-- Survivor membership for Stage 1. -/
lemma mem_stage1Survivors {hashFn : String → String} {rows : List (String × Int)}
    {i : Nat} :
    i ∈ stage1Survivors hashFn rows ↔
      i < rows.length ∧ ¬ i ∈ exactDupPositions (textHashes hashFn rows) := by
  simp [stage1Survivors, List.mem_filter, List.mem_range]

/-- Survivor membership for Stage 2. -/
lemma mem_stage2Survivors {n : Nat} {groups : List (List Nat)} {i : Nat} :
    i ∈ stage2Survivors n groups ↔ i < n ∧ ¬ i ∈ stage2DupPositions groups := by
  simp [stage2Survivors, List.mem_filter, List.mem_range]

/-- The head of a non-empty hash group is never marked as an exact duplicate. -/
lemma groupHead_not_exactDup {hs : List String} {v : String}
    (hne : groupPositions hs v ≠ []) :
    ¬ (groupPositions hs v).headD 0 ∈ exactDupPositions hs := by
  intro hmem
  rw [exactDupPositions, List.mem_flatMap] at hmem
  obtain ⟨w, _, hw⟩ := hmem
  have hmemw : (groupPositions hs v).headD 0 ∈ groupPositions hs w :=
    List.drop_subset 1 _ hw
  have hmemv : (groupPositions hs v).headD 0 ∈ groupPositions hs v := headD_mem hne
  have hvw : v = w :=
    (mem_groupPositions.mp hmemv).2 ▸ (mem_groupPositions.mp hmemw).2 ▸ rfl
  subst hvw
  exact headD_not_mem_drop_one (groupPositions_nodup hs v) hw

/-- Every non-head member of a hash group is marked as an exact duplicate. -/
lemma groupMem_exactDup {hs : List String} {v : String} {j : Nat}
    (hj : j ∈ groupPositions hs v) (hne : j ≠ (groupPositions hs v).headD 0) :
    j ∈ exactDupPositions hs := by
  rw [exactDupPositions, List.mem_flatMap]
  refine ⟨v, ?_, mem_drop_one_of_ne_headD hj hne⟩
  have hjlt := (mem_groupPositions.mp hj).1
  have hv : hs.getD j "" = v := (mem_groupPositions.mp hj).2
  have : v ∈ hs := by
    rw [← hv, List.getD_eq_getElem hs "" hjlt]
    exact List.getElem_mem hjlt
  exact mem_firstOccurrences.mpr this

/-- Two member-sharing groups of a pairwise-disjoint list are equal. -/
lemma eq_of_shared_mem_of_pairwise_disjoint {groups : List (List Nat)}
    (hdisj : groups.Pairwise List.Disjoint) {g g' : List Nat}
    (hg : g ∈ groups) (hg' : g' ∈ groups) {x : Nat} (hx : x ∈ g) (hx' : x ∈ g') :
    g = g' := by
  induction groups with
  | nil => cases hg
  | cons h t ih =>
      have hd := (List.pairwise_cons.mp hdisj).1
      have ht := (List.pairwise_cons.mp hdisj).2
      rcases List.mem_cons.mp hg with rfl | hgt
      · rcases List.mem_cons.mp hg' with rfl | hg't
        · rfl
        · exact absurd hx' (hd g' hg't hx)
      · rcases List.mem_cons.mp hg' with rfl | hg't
        · exact absurd hx (hd g hgt hx')
        · exact ih ht hgt hg't

/-- The smallest member of a non-empty semantic group survives Stage 2. -/
lemma stage2Head_not_removed {groups : List (List Nat)} {g : List Nat}
    (hg : g ∈ groups) (hne : g ≠ []) (hnd : ∀ g' ∈ groups, g'.Nodup)
    (hdisj : groups.Pairwise List.Disjoint) :
    ¬ (List.insertionSort (· ≤ ·) g).headD 0 ∈ stage2DupPositions groups := by
  intro hmem
  rw [stage2DupPositions, List.mem_flatMap] at hmem
  obtain ⟨g', hg', hmem'⟩ := hmem
  have hsortne : List.insertionSort (· ≤ ·) g ≠ [] := by
    intro hnil
    have hperm := (List.perm_insertionSort (· ≤ ·) g).symm
    rw [hnil] at hperm
    exact hne hperm.eq_nil
  have hheadg : (List.insertionSort (· ≤ ·) g).headD 0 ∈ g :=
    (List.perm_insertionSort (· ≤ ·) g).subset (headD_mem hsortne)
  have hheadg' : (List.insertionSort (· ≤ ·) g).headD 0 ∈ g' :=
    (List.perm_insertionSort (· ≤ ·) g').subset (List.drop_subset 1 _ hmem')
  have hgg : g = g' := eq_of_shared_mem_of_pairwise_disjoint hdisj hg hg' hheadg hheadg'
  subst hgg
  exact headD_not_mem_drop_one
    ((List.perm_insertionSort (· ≤ ·) g).nodup_iff.mpr (hnd g hg)) hmem'

/-- Every non-minimal member of a semantic group is removed by Stage 2. -/
lemma stage2Mem_removed {groups : List (List Nat)} {g : List Nat} {j : Nat}
    (hg : g ∈ groups) (hj : j ∈ g) (hnd : ∀ g' ∈ groups, g'.Nodup)
    (hne : j ≠ (List.insertionSort (· ≤ ·) g).headD 0) :
    j ∈ stage2DupPositions groups := by
  rw [stage2DupPositions, List.mem_flatMap]
  refine ⟨g, hg, ?_⟩
  have hjs : j ∈ List.insertionSort (· ≤ ·) g :=
    (List.perm_insertionSort (· ≤ ·) g).symm.subset hj
  exact mem_drop_one_of_ne_headD hjs hne

/-- The head of the sorted group is a lower bound of the group. -/
lemma sortedHead_le {g : List Nat} {j : Nat} (hj : j ∈ g) :
    (List.insertionSort (· ≤ ·) g).headD 0 ≤ j := by
  have hjs : j ∈ List.insertionSort (· ≤ ·) g :=
    (List.perm_insertionSort (· ≤ ·) g).symm.subset hj
  have hsorted := List.sorted_insertionSort (· ≤ ·) g
  cases hs : List.insertionSort (· ≤ ·) g with
  | nil => rw [hs] at hjs; cases hjs
  | cons a t =>
      rw [hs] at hjs hsorted
      rcases List.mem_cons.mp hjs with rfl | hjt
      · simp
      · simpa using (List.pairwise_cons.mp hsorted).1 j hjt

/-- The sanitizer preserves the relative order of rows: its output's
original-index column is a subsequence of the input's. -/
lemma sanitizeRows_snd_sublist (f : String → String)
    (rows : List (Option String × Int)) :
    ((sanitizeRows f rows).map Prod.snd).Sublist (rows.map Prod.snd) := by
  induction rows with
  | nil => simp [sanitizeRows]
  | cons r t ih =>
      simp only [sanitizeRows] at ih ⊢
      rw [List.filterMap_cons]
      cases hr : r.1 with
      | none =>
          simp only [hr]
          exact List.Sublist.cons r.2 ih
      | some tx =>
          simp only [hr]
          by_cases hstrip : pyStrip tx.data = []
          · simp only [if_pos hstrip]
            exact List.Sublist.cons r.2 ih
          · simp only [if_neg hstrip, List.map_cons]
            exact List.Sublist.cons₂ r.2 ih

/-- The `_original_index` column attached by `runP` is strictly increasing. -/
lemma df0_snd_pairwise (input : List (Option String)) :
    ((input.enum.map (fun p => (p.2, (p.1 : Int)))).map Prod.snd).Pairwise
      (· < ·) := by
  have h1 : ((input.enum.map (fun p => (p.2, (p.1 : Int)))).map Prod.snd)
      = input.enum.map (fun p => (p.1 : Int)) := by
    simp [Function.comp]
  rw [h1]
  rw [List.pairwise_map]
  have h2 := List.pairwise_lt_range input.length
  have h3 : input.enum.map Prod.fst = List.range input.length := List.enum_map_fst input
  have h4 : List.Pairwise (fun p q : Nat × Option String => p.1 < q.1) input.enum := by
    have := h3 ▸ h2
    rwa [List.pairwise_map] at this
  exact h4.imp (fun h => by exact_mod_cast h)

/-- Validation events drawn from the precompute loop carry duplicate or
validation reasons. -/
lemma validationEvents_mem_dupVal {m : Int} {df : List (String × Int)}
    {e : AuditEvent} (h : e ∈ df.filterMap (validationEvent m)) :
    e.reason ∈ dupValReasons := by
  rw [List.mem_filterMap] at h
  obtain ⟨r, _, hr⟩ := h
  rcases validationEvent_reason hr with h | h <;> simp [dupValReasons, h]

/-- Audit events of `finishRun` keep to the duplicate/validation reasons. -/
lemma finishRun_events_reasons (cfg : RunConfig) (tcp : Bool) (stats : Stats)
    (ev : List AuditEvent) (df : List (String × Int)) (ec sc : Int)
    (hev : ∀ e ∈ ev, e.reason ∈ dupValReasons) :
    ∀ e ∈ (finishRun cfg tcp stats ev df ec sc).audit_events,
      e.reason ∈ dupValReasons := by
  intro e he
  rw [finishRun] at he
  split at he
  · rcases List.mem_append.mp he with h | h
    · exact hev e h
    · exact validationEvents_mem_dupVal h
  · exact hev e he

/-- Audit events of `runStage2` keep to the duplicate/validation reasons. -/
lemma runStage2_events_reasons (env : PipelineEnv) (cfg : RunConfig)
    (stats : Stats) (ev1 : List AuditEvent) (surv1 : List (String × Int))
    (ec : Int) (hev : ∀ e ∈ ev1, e.reason ∈ dupValReasons) :
    ∀ e ∈ (runStage2 env cfg stats ev1 surv1 ec).audit_events,
      e.reason ∈ dupValReasons := by
  intro e he
  rw [runStage2] at he
  split at he
  · split at he
    · exact hev e he
    · refine finishRun_events_reasons _ _ _ _ _ _ _ ?_ e he
      intro x hx
      rcases List.mem_append.mp hx with h | h
      · exact hev x h
      · rw [stage2Events_reason h]
        simp [dupValReasons]
  · refine finishRun_events_reasons _ _ _ _ _ _ _ hev e he

/-- Audit events of `runStage1` keep to the duplicate/validation reasons. -/
lemma runStage1_events_reasons (env : PipelineEnv) (cfg : RunConfig)
    (stats : Stats) (df1 : List (String × Int)) :
    ∀ e ∈ (runStage1 env cfg stats df1).audit_events,
      e.reason ∈ dupValReasons := by
  intro e he
  rw [runStage1] at he
  refine runStage2_events_reasons _ _ _ _ _ _ ?_ e he
  intro x hx
  rw [stage1Events_reason hx]
  simp [dupValReasons]

/-- Audit events of `runDedupEntry` keep to the duplicate/validation reasons. -/
lemma runDedupEntry_events_reasons (env : PipelineEnv) (cfg : RunConfig)
    (stats : Stats) (df1 : List (String × Int)) :
    ∀ e ∈ (runDedupEntry env cfg stats df1).audit_events,
      e.reason ∈ dupValReasons := by
  intro e he
  rw [runDedupEntry] at he
  split at he
  · exact runStage1_events_reasons _ _ _ _ e he
  · cases he

/-- Audit events of `runChunking` keep to the duplicate/validation reasons. -/
lemma runChunking_events_reasons (env : PipelineEnv) (cfg : RunConfig)
    (stats : Stats) (dfSan : List (String × Int)) :
    ∀ e ∈ (runChunking env cfg stats dfSan).audit_events,
      e.reason ∈ dupValReasons := by
  intro e he
  rw [runChunking] at he
  split at he
  · split at he
    · split at he
      · cases he
      · exact runDedupEntry_events_reasons _ _ _ _ e he
    · exact runDedupEntry_events_reasons _ _ _ _ e he
  · exact runDedupEntry_events_reasons _ _ _ _ e he

/-- A key found in the first part of an appended association list. -/
lemma lookup_append_some {l₁ l₂ : Stats} {k : String} {v : StatVal}
    (h : l₁.lookup k = some v) : (l₁ ++ l₂).lookup k = some v := by
  induction l₁ with
  | nil => cases h
  | cons p t ih =>
      obtain ⟨pk, pv⟩ := p
      simp only [List.lookup] at h ⊢
      cases hk : (k == pk)
      · rw [hk] at h
        exact ih h
      · rw [hk] at h
        exact h

/-- A key absent from the first part of an appended association list. -/
lemma lookup_append_none {l₁ l₂ : Stats} {k : String}
    (h : l₁.lookup k = none) : (l₁ ++ l₂).lookup k = l₂.lookup k := by
  induction l₁ with
  | nil => rfl
  | cons p t ih =>
      obtain ⟨pk, pv⟩ := p
      simp only [List.lookup] at h ⊢
      cases hk : (k == pk)
      · rw [hk] at h
        exact ih h
      · rw [hk] at h
        exact Option.noConfusion h

/-- Selecting in-range positions yields one row per position. -/
lemma selectPositions_length {l : List (String × Int)} {ps : List Nat}
    (h : ∀ i ∈ ps, i < l.length) : (selectPositions l ps).length = ps.length := by
  induction ps with
  | nil => rfl
  | cons i ps ih =>
      rw [selectPositions, List.filterMap_cons]
      have hi : i < l.length := h i (by simp)
      rw [List.getElem?_eq_getElem hi]
      simp only [List.length_cons]
      rw [← selectPositions]
      rw [ih (fun j hj => h j (by simp [hj]))]

/-- Every event of a list with duplicate/validation reasons is counted. -/
lemma countDupVal_eq_length {ev : List AuditEvent}
    (h : ∀ e ∈ ev, e.reason ∈ dupValReasons) : countDupVal ev = ev.length := by
  rw [countDupVal]
  rw [List.filter_eq_self.mpr]
  intro e he
  simpa using h e he

/-- Lookup misses an association list none of whose keys match. -/
lemma lookup_none_of_keys_ne {k : String} (blk : Stats)
    (h : ∀ p ∈ blk, (k == p.1) = false) : blk.lookup k = none := by
  induction blk with
  | nil => rfl
  | cons p t ih =>
      obtain ⟨pk, pv⟩ := p
      simp only [List.lookup]
      rw [h (pk, pv) (by simp)]
      exact ih (fun q hq => h q (by simp [hq]))

/-- The `Chunker(...)` call of `Pipeline.run` always raises: `separators`
is not a field of the dataclass. -/
lemma chunkerInit_separators (cs ov : Int) :
    chunkerInit cs ov ["separators"]
      = .error "Chunker.__init__() got an unexpected keyword argument 'separators'" :=
  rfl

/-- Counting and stats facts about a successful `finishRun`: one audit
event per validation drop, `final_rows` is the validated length, and the
incoming stats entries survive. -/
lemma finishRun_spec (cfg : RunConfig) (tcp : Bool) (stats : Stats)
    (ev : List AuditEvent) (df : List (String × Int)) (ec sc : Int)
    (hev : ∀ e ∈ ev, e.reason ∈ dupValReasons)
    (hfr : stats.lookup "final_rows" = none)
    (hsucc : (finishRun cfg tcp stats ev df ec sc).success = true) :
    (countDupVal (finishRun cfg tcp stats ev df ec sc).audit_events : ℚ)
        + statNum (finishRun cfg tcp stats ev df ec sc).stats "final_rows"
      = (ev.length : ℚ) + (df.length : ℚ) ∧
    ∀ k v, stats.lookup k = some v →
      ((finishRun cfg tcp stats ev df ec sc).stats).lookup k = some v := by
  cases tcp with
  | false =>
      exfalso
      rw [finishRun] at hsucc
      simp [mkFail] at hsucc
  | true =>
      have hevall : ∀ e ∈ ev ++ df.filterMap (validationEvent cfg.min_length),
          e.reason ∈ dupValReasons := by
        intro e he
        rcases List.mem_append.mp he with h | h
        · exact hev e h
        · exact validationEvents_mem_dupVal h
      have hcount := countDupVal_eq_length hevall
      have hvc := validation_count cfg.min_length df
      have hvc2 : ((df.filterMap (validationEvent cfg.min_length)).length : ℚ)
          + ((validateData cfg.min_length df).length : ℚ) = (df.length : ℚ) := by
        exact_mod_cast congrArg (fun n : Nat => (n : ℚ)) hvc
      rcases halp : cfg.audit_log_path with _ | p <;>
      · rw [finishRun]
        simp only [halp, if_true, List.append_assoc]
        constructor
        · rw [hcount, statNum, lookup_append_none hfr, lookup_append_none (by rfl),
            lookup_append_none (by rfl), lookup_append_none (by rfl)]
          simp only [List.lookup, beq_self_eq_true, List.length_append]
          push_cast
          linarith
        · intro k v h
          exact lookup_append_some h

/-- Counting and stats facts about a successful `runStage2`: Stage-2 events
plus final rows account for every Stage-1 survivor. -/
lemma runStage2_spec (env : PipelineEnv) (cfg : RunConfig) (stats : Stats)
    (ev1 : List AuditEvent) (surv1 : List (String × Int)) (ec : Int)
    (hev : ∀ e ∈ ev1, e.reason ∈ dupValReasons)
    (hfr : stats.lookup "final_rows" = none)
    (hvg : ValidGrouping env.findDuplicates)
    (hsucc : (runStage2 env cfg stats ev1 surv1 ec).success = true) :
    (countDupVal (runStage2 env cfg stats ev1 surv1 ec).audit_events : ℚ)
        + statNum (runStage2 env cfg stats ev1 surv1 ec).stats "final_rows"
      = (ev1.length : ℚ) + (surv1.length : ℚ) ∧
    ∀ k v, stats.lookup k = some v →
      ((runStage2 env cfg stats ev1 surv1 ec).stats).lookup k = some v := by
  by_cases hpos : surv1.length > 0
  · rcases hfd : env.findDuplicates (surv1.map Prod.fst) with e | groups
    · exfalso
      rw [runStage2, if_pos hpos, hfd] at hsucc
      simp [mkFail] at hsucc
    · obtain ⟨hdisj, hnd, hlt⟩ := hvg _ _ hfd
      have hlt' : ∀ g ∈ groups, ∀ x ∈ g, x < surv1.length := by
        intro g hg x hx
        have := hlt g hg x hx
        simpa using this
      have hev2 : ∀ e ∈ ev1 ++ stage2Events surv1 groups,
          e.reason ∈ dupValReasons := by
        intro e he
        rcases List.mem_append.mp he with h | h
        · exact hev e h
        · rw [stage2Events_reason h]
          simp [dupValReasons]
      rw [runStage2, if_pos hpos, hfd] at hsucc ⊢
      have hs := finishRun_spec cfg env.textColPresent _ _ _ _ _ hev2
        (by rw [lookup_append_none hfr]; rfl) hsucc
      refine ⟨?_, fun k v h => hs.2 k v (lookup_append_some h)⟩
      rw [hs.1]
      have hsel : (selectPositions surv1 (stage2Survivors surv1.length groups)).length
          = (stage2Survivors surv1.length groups).length :=
        selectPositions_length (fun i hi => (mem_stage2Survivors.mp hi).1)
      have hcnt := stage2_count surv1 surv1.length groups hnd hdisj hlt'
      rw [List.length_append, hsel]
      have hq : ((stage2Events surv1 groups).length : ℚ)
          + ((stage2Survivors surv1.length groups).length : ℚ)
            = (surv1.length : ℚ) := by exact_mod_cast hcnt
      push_cast
      linarith
  · rw [runStage2, if_neg hpos] at hsucc ⊢
    have hs := finishRun_spec cfg env.textColPresent _ _ _ _ _ hev
      (by rw [lookup_append_none hfr]; rfl) hsucc
    exact ⟨hs.1, fun k v h => hs.2 k v (lookup_append_some h)⟩

/-- Counting and stats facts about a successful `runStage1`: duplicate and
validation events plus final rows account for every sanitized row. -/
lemma runStage1_spec (env : PipelineEnv) (cfg : RunConfig) (stats : Stats)
    (df1 : List (String × Int))
    (hfr : stats.lookup "final_rows" = none)
    (hvg : ValidGrouping env.findDuplicates)
    (hsucc : (runStage1 env cfg stats df1).success = true) :
    (countDupVal (runStage1 env cfg stats df1).audit_events : ℚ)
        + statNum (runStage1 env cfg stats df1).stats "final_rows"
      = (df1.length : ℚ) ∧
    ∀ k v, stats.lookup k = some v →
      ((runStage1 env cfg stats df1).stats).lookup k = some v := by
  rw [runStage1] at hsucc ⊢
  have hev1 : ∀ e ∈ stage1Events env.hashFn df1, e.reason ∈ dupValReasons := by
    intro e he
    rw [stage1Events_reason he]
    simp [dupValReasons]
  have hs := runStage2_spec env cfg _ _ _ _ hev1
    (by rw [lookup_append_none hfr]; rfl) hvg hsucc
  refine ⟨?_, fun k v h => hs.2 k v (lookup_append_some h)⟩
  rw [hs.1]
  have hsel : (selectPositions df1 (stage1Survivors env.hashFn df1)).length
      = (stage1Survivors env.hashFn df1).length :=
    selectPositions_length (fun i hi => (mem_stage1Survivors.mp hi).1)
  have hcnt := stage1_count env.hashFn df1
  rw [hsel]
  exact_mod_cast hcnt

/-- `runDedupEntry` on success behaves as `runStage1`. -/
lemma runDedupEntry_spec (env : PipelineEnv) (cfg : RunConfig) (stats : Stats)
    (df1 : List (String × Int))
    (hfr : stats.lookup "final_rows" = none)
    (hvg : ValidGrouping env.findDuplicates)
    (hsucc : (runDedupEntry env cfg stats df1).success = true) :
    (countDupVal (runDedupEntry env cfg stats df1).audit_events : ℚ)
        + statNum (runDedupEntry env cfg stats df1).stats "final_rows"
      = (df1.length : ℚ) ∧
    ∀ k v, stats.lookup k = some v →
      ((runDedupEntry env cfg stats df1).stats).lookup k = some v := by
  by_cases htcp : env.textColPresent = true
  · rw [runDedupEntry, if_pos htcp] at hsucc ⊢
    exact runStage1_spec env cfg stats df1 hfr hvg hsucc
  · exfalso
    rw [runDedupEntry, if_neg htcp] at hsucc
    simp [mkFail] at hsucc

/-- A successful run never went through the chunking branch (the `Chunker`
construction raises), so `runChunking` on success accounts for every
sanitized row. -/
lemma runChunking_spec (env : PipelineEnv) (cfg : RunConfig) (stats : Stats)
    (dfSan : List (String × Int))
    (hfr : stats.lookup "final_rows" = none)
    (hvg : ValidGrouping env.findDuplicates)
    (hsucc : (runChunking env cfg stats dfSan).success = true) :
    (countDupVal (runChunking env cfg stats dfSan).audit_events : ℚ)
        + statNum (runChunking env cfg stats dfSan).stats "final_rows"
      = (dfSan.length : ℚ) ∧
    ∀ k v, stats.lookup k = some v →
      ((runChunking env cfg stats dfSan).stats).lookup k = some v := by
  rcases hcs : cfg.chunk_size with _ | k
  · simp only [runChunking, hcs] at hsucc ⊢
    have hs := runDedupEntry_spec env cfg _ dfSan
      (by rw [lookup_append_none hfr]; rfl) hvg hsucc
    exact ⟨hs.1, fun k v h => hs.2 k v (lookup_append_some h)⟩
  · by_cases hk : 0 < k
    · exfalso
      simp only [runChunking, hcs] at hsucc
      rw [if_pos hk, chunkerInit_separators] at hsucc
      simp [mkFail] at hsucc
    · simp only [runChunking, hcs] at hsucc ⊢
      rw [if_neg hk] at hsucc ⊢
      have hs := runDedupEntry_spec env cfg _ dfSan
        (by rw [lookup_append_none hfr]; rfl) hvg hsucc
      exact ⟨hs.1, fun k v h => hs.2 k v (lookup_append_some h)⟩

/-! ## Claim C2 -/

/-- C2, counterexample. The claim states that in every duplicate group the
surviving member is the one with the smallest `_original_index`. But
`Pipeline.run` attaches `arange` only when the input does not already carry
an `_original_index` column (`pipeline.py`, lines 163–166): an input
supplying its own out-of-order column — here two identical long texts with
indices 7 and 3 — is a real successful run in which Stage 1 keeps the
first row (index 7) and removes index 3, although `3 < 7`. -/
theorem c2_canonical_counterexample :
    (runP envOwnIdx cfgPlain).success = true ∧
    (runP envOwnIdx cfgPlain).written = some [(longText, 7)] ∧
    ({ row_index := 3, reason := "exact_duplicate",
       details := "Exact duplicate of original row 7 (hash: aaaaaaaa...)" }
        : AuditEvent) ∈ (runP envOwnIdx cfgPlain).audit_events ∧
    (3 : Int) < 7 := by
  refine ⟨by decide, by decide, by decide, by decide⟩

/-- C2, amended. In every duplicate group `Pipeline.run` detects — Stage 1
(exact hash, `pipeline.py` 264–293) or Stage 2 (semantic, `pipeline.py`
324–353) — the member kept is the first in row order, and it is the one
with the smallest `_original_index` (every other member being removed)
*provided* the original-index column is strictly increasing in row order.
That provision holds in every run whose input does not supply its own
`_original_index` column: the last two conjuncts show that the column the
pipeline attaches is `arange` (strictly increasing) and that sanitization
and position-filter selection preserve strict increase, so the rows
reaching both stages satisfy it. With a user-supplied out-of-order column
the survivor need not carry the smallest index (see the counterexample). -/
theorem c2_canonical_smallest_original_index (hashFn : String → String)
    (rows : List (String × Int))
    (hmono : (rows.map Prod.snd).Pairwise (· < ·)) :
    canonicalSurvivorProp hashFn rows ∧
    (∀ (transform : String → String) (input : List (Option String)),
      ((sanitizeRows transform
        (input.enum.map (fun p => (p.2, (p.1 : Int))))).map Prod.snd).Pairwise
          (· < ·)) ∧
    (∀ p : Nat → Bool,
      ((selectPositions rows ((List.range rows.length).filter p)).map
        Prod.snd).Pairwise (· < ·)) := by
  have hlen : (textHashes hashFn rows).length = rows.length := by simp [textHashes]
  refine ⟨⟨?_, ?_⟩, ?_, ?_⟩
  · -- Stage 1
    intro v hne
    have hheadmem := headD_mem hne
    have hheadlt : (groupPositions (textHashes hashFn rows) v).headD 0 < rows.length :=
      hlen ▸ (mem_groupPositions.mp hheadmem).1
    refine ⟨mem_stage1Survivors.mpr ⟨hheadlt, groupHead_not_exactDup hne⟩, ?_⟩
    intro j hj hne2
    have hjlt : j < rows.length := hlen ▸ (mem_groupPositions.mp hj).1
    have hdup := groupMem_exactDup hj hne2
    refine ⟨fun hjs => (mem_stage1Survivors.mp hjs).2 hdup, ?_⟩
    have hheadj := headD_lt_of_pairwise
      (groupPositions_pairwise (textHashes hashFn rows) v) hj hne2
    exact sndAt_lt_of_pairwise hmono hheadj hjlt
  · -- Stage 2
    intro groups hdisj hnd hlt g hg hne
    have hsortne : List.insertionSort (· ≤ ·) g ≠ [] := by
      intro hnil
      have hperm := (List.perm_insertionSort (· ≤ ·) g).symm
      rw [hnil] at hperm
      exact hne hperm.eq_nil
    have hheadg : (List.insertionSort (· ≤ ·) g).headD 0 ∈ g :=
      (List.perm_insertionSort (· ≤ ·) g).subset (headD_mem hsortne)
    have hheadlt : (List.insertionSort (· ≤ ·) g).headD 0 < rows.length :=
      hlt g hg _ hheadg
    refine ⟨mem_stage2Survivors.mpr
      ⟨hheadlt, stage2Head_not_removed hg hne hnd hdisj⟩, ?_⟩
    intro j hj hne2
    have hjlt : j < rows.length := hlt g hg j hj
    have hrem := stage2Mem_removed hg hj hnd hne2
    refine ⟨fun hjs => (mem_stage2Survivors.mp hjs).2 hrem, ?_⟩
    have hle := sortedHead_le hj
    have hheadj : (List.insertionSort (· ≤ ·) g).headD 0 < j :=
      lt_of_le_of_ne hle (fun h => hne2 h.symm)
    exact sndAt_lt_of_pairwise hmono hheadj hjlt
  · -- sanitization preserves strict increase of the arange column
    intro transform input
    exact List.Pairwise.sublist (sanitizeRows_snd_sublist transform _)
      (df0_snd_pairwise input)
  · -- position-filter selection preserves strict increase
    intro p
    exact List.Pairwise.sublist
      (List.Sublist.map Prod.snd (selectFilter_sublist rows p)) hmono

/-- Witness for C2: the hypothesis and conclusion at the concrete rows
`rowsW`, the conclusion obtained by applying the theorem. -/
theorem c2_canonical_smallest_original_index_witness :
    ((rowsW.map Prod.snd).Pairwise (· < ·)) ∧
    (canonicalSurvivorProp id rowsW ∧
    (∀ (transform : String → String) (input : List (Option String)),
      ((sanitizeRows transform
        (input.enum.map (fun p => (p.2, (p.1 : Int))))).map Prod.snd).Pairwise
          (· < ·)) ∧
    (∀ p : Nat → Bool,
      ((selectPositions rowsW ((List.range rowsW.length).filter p)).map
        Prod.snd).Pairwise (· < ·))) :=
  ⟨by decide, c2_canonical_smallest_original_index id rowsW (by decide)⟩

/-- A string with a non-empty right component is non-empty. -/
lemma append_ne_empty_right (a b : String) (hb : b.data ≠ []) : a ++ b ≠ "" := by
  obtain ⟨la⟩ := a
  obtain ⟨lb⟩ := b
  intro h
  have h2 : la ++ lb = ([] : List Char) := congrArg String.data h
  rcases List.append_eq_nil.mp h2 with ⟨_, h3⟩
  exact hb h3

/-- `x or fallback` with a non-empty fallback is non-empty. -/
lemma pyOr_ne_empty (a : Option String) {fb : String} (hfb : fb ≠ "") :
    pyOr a fb ≠ "" := by
  rcases a with _ | s
  · exact hfb
  · rw [pyOr]
    by_cases h : s = ""
    · rw [if_pos h]
      exact hfb
    · rw [if_neg h]
      exact h

/-- Error discipline of `finishRun`: no `error` key on success, a non-empty
message on failure, and the `output_path` key is always set. -/
lemma finishRun_error_spec (cfg : RunConfig) (tcp : Bool) (stats : Stats)
    (ev : List AuditEvent) (df : List (String × Int)) (ec sc : Int) :
    ((finishRun cfg tcp stats ev df ec sc).success = true →
      (finishRun cfg tcp stats ev df ec sc).error = none) ∧
    ((finishRun cfg tcp stats ev df ec sc).success = false →
      ∃ msg, (finishRun cfg tcp stats ev df ec sc).error = some msg ∧ msg ≠ "") ∧
    (finishRun cfg tcp stats ev df ec sc).output_path = cfg.output_path := by
  cases tcp with
  | true =>
      refine ⟨fun _ => rfl, fun h => ?_, rfl⟩
      rw [finishRun] at h
      simp at h
  | false =>
      refine ⟨fun h => ?_, fun _ => ?_, rfl⟩
      · rw [finishRun] at h
        simp [mkFail] at h
      · exact ⟨"Text column '" ++ cfg.text_column ++ "' not found before validation",
          rfl, append_ne_empty_right _ _ (by decide)⟩

/-- Error discipline of `runStage2` (given that embedder exceptions carry
non-empty messages). -/
lemma runStage2_error_spec (env : PipelineEnv) (cfg : RunConfig) (stats : Stats)
    (ev1 : List AuditEvent) (surv1 : List (String × Int)) (ec : Int)
    (hfd : ∀ ts e, env.findDuplicates ts = .error e → e ≠ "") :
    ((runStage2 env cfg stats ev1 surv1 ec).success = true →
      (runStage2 env cfg stats ev1 surv1 ec).error = none) ∧
    ((runStage2 env cfg stats ev1 surv1 ec).success = false →
      ∃ msg, (runStage2 env cfg stats ev1 surv1 ec).error = some msg ∧ msg ≠ "") ∧
    (runStage2 env cfg stats ev1 surv1 ec).output_path = cfg.output_path := by
  by_cases hpos : surv1.length > 0
  · rcases hfd2 : env.findDuplicates (surv1.map Prod.fst) with e | groups
    · rw [runStage2, if_pos hpos, hfd2]
      exact ⟨fun h => by simp [mkFail] at h,
        fun _ => ⟨e, rfl, hfd _ _ hfd2⟩, rfl⟩
    · rw [runStage2, if_pos hpos, hfd2]
      exact finishRun_error_spec cfg env.textColPresent _ _ _ _ _
  · rw [runStage2, if_neg hpos]
    exact finishRun_error_spec cfg env.textColPresent _ _ _ _ _

/-- Error discipline of `runStage1`. -/
lemma runStage1_error_spec (env : PipelineEnv) (cfg : RunConfig) (stats : Stats)
    (df1 : List (String × Int))
    (hfd : ∀ ts e, env.findDuplicates ts = .error e → e ≠ "") :
    ((runStage1 env cfg stats df1).success = true →
      (runStage1 env cfg stats df1).error = none) ∧
    ((runStage1 env cfg stats df1).success = false →
      ∃ msg, (runStage1 env cfg stats df1).error = some msg ∧ msg ≠ "") ∧
    (runStage1 env cfg stats df1).output_path = cfg.output_path := by
  rw [runStage1]
  exact runStage2_error_spec env cfg _ _ _ _ hfd

/-- Error discipline of `runDedupEntry`. -/
lemma runDedupEntry_error_spec (env : PipelineEnv) (cfg : RunConfig)
    (stats : Stats) (df1 : List (String × Int))
    (hfd : ∀ ts e, env.findDuplicates ts = .error e → e ≠ "") :
    ((runDedupEntry env cfg stats df1).success = true →
      (runDedupEntry env cfg stats df1).error = none) ∧
    ((runDedupEntry env cfg stats df1).success = false →
      ∃ msg, (runDedupEntry env cfg stats df1).error = some msg ∧ msg ≠ "") ∧
    (runDedupEntry env cfg stats df1).output_path = cfg.output_path := by
  by_cases htcp : env.textColPresent = true
  · rw [runDedupEntry, if_pos htcp]
    exact runStage1_error_spec env cfg _ _ hfd
  · rw [runDedupEntry, if_neg htcp]
    exact ⟨fun h => by simp [mkFail] at h,
      fun _ => ⟨"Text column '" ++ cfg.text_column ++ "' not found after sanitization",
        rfl, append_ne_empty_right _ _ (by decide)⟩, rfl⟩

/-- Error discipline of `runChunking`. -/
lemma runChunking_error_spec (env : PipelineEnv) (cfg : RunConfig)
    (stats : Stats) (dfSan : List (String × Int))
    (hfd : ∀ ts e, env.findDuplicates ts = .error e → e ≠ "") :
    ((runChunking env cfg stats dfSan).success = true →
      (runChunking env cfg stats dfSan).error = none) ∧
    ((runChunking env cfg stats dfSan).success = false →
      ∃ msg, (runChunking env cfg stats dfSan).error = some msg ∧ msg ≠ "") ∧
    (runChunking env cfg stats dfSan).output_path = cfg.output_path := by
  rcases hcs : cfg.chunk_size with _ | k
  · simp only [runChunking, hcs]
    exact runDedupEntry_error_spec env cfg _ _ hfd
  · simp only [runChunking, hcs]
    by_cases hk : 0 < k
    · rw [if_pos hk, chunkerInit_separators]
      exact ⟨fun h => by simp [mkFail] at h,
        fun _ => ⟨"Chunker.__init__() got an unexpected keyword argument 'separators'",
          rfl, by decide⟩, rfl⟩
    · rw [if_neg hk]
      exact runDedupEntry_error_spec env cfg _ _ hfd

/-! ## Claim C3 -/

/-- C3, counterexample. The claim states that the number of audit events
with duplicate/validation reasons equals `original_rows − final_rows`,
counting rows dropped by sanitization. In the run `runP envBase cfgPlain`
the null-text row is dropped by the sanitizer's missing-value policy
without any audit event: `original_rows − final_rows = 2 − 1 = 1` but no
duplicate/validation event exists. -/
theorem c3_audit_completeness_counterexample :
    (runP envBase cfgPlain).success = true ∧
    statNum (runP envBase cfgPlain).stats "original_rows" = 2 ∧
    statNum (runP envBase cfgPlain).stats "final_rows" = 1 ∧
    countDupVal (runP envBase cfgPlain).audit_events = 0 ∧
    (0 : ℚ) ≠ 2 - 1 := by
  refine ⟨by decide, by decide, by decide, by decide, by norm_num⟩

/-- C3, amended. For every successful `Pipeline.run` (with the duplicate
groups satisfying the `find_duplicates` contract), the number of audit
events with a duplicate or validation reason equals
`after_sanitization_rows − final_rows` — not `original_rows − final_rows`:
rows dropped by sanitization's missing-value policy produce no audit
event. -/
theorem c3_audit_completeness_amended (env : PipelineEnv) (cfg : RunConfig)
    (hvg : ValidGrouping env.findDuplicates)
    (hsucc : (runP env cfg).success = true) :
    (countDupVal (runP env cfg).audit_events : ℚ)
        + statNum (runP env cfg).stats "final_rows"
      = statNum (runP env cfg).stats "after_sanitization_rows" := by
  rcases hload : env.load with e | input
  · exfalso
    simp only [runP, hload] at hsucc
    simp [mkFail] at hsucc
  · simp only [runP, hload] at hsucc ⊢
    by_cases hn : input.texts.length = 0
    · exfalso
      rw [if_pos hn] at hsucc
      simp [mkFail] at hsucc
    · rw [if_neg hn] at hsucc ⊢
      rcases hsch : (if cfg.required_columns then env.schemaResult else none)
        with _ | e1
      · simp only [hsch] at hsucc ⊢
        have hs := runChunking_spec env cfg _ _ (by rfl) hvg hsucc
        have hpres := hs.2 "after_sanitization_rows" _ (by rfl)
        rw [hs.1, statNum, hpres]
      · exfalso
        simp only [hsch] at hsucc
        simp [mkFail] at hsucc

/-- Witness for C3 (amended): the trivial grouping satisfies the contract,
the `envBase` run succeeds, and the equation holds there by the theorem. -/
theorem c3_audit_completeness_amended_witness :
    ValidGrouping envBase.findDuplicates ∧
    (runP envBase cfgPlain).success = true ∧
    (countDupVal (runP envBase cfgPlain).audit_events : ℚ)
        + statNum (runP envBase cfgPlain).stats "final_rows"
      = statNum (runP envBase cfgPlain).stats "after_sanitization_rows" := by
  have hvg : ValidGrouping envBase.findDuplicates := by
    intro ts groups h
    cases h
    exact ⟨List.Pairwise.nil, by simp, by simp⟩
  exact ⟨hvg, by decide,
    c3_audit_completeness_amended envBase cfgPlain hvg (by decide)⟩

/-! ## Claim C4 -/

/-- C4, counterexample. The claim states every audit reason is drawn from
the spec's closed enum. In the concrete run `runP envDup cfgPlain` the
too-short row produces the reason string `"Validation: too_short"`
(`pipeline.py`, line 420), which is not in the enum (the spec spells it
`validation_too_short`). -/
theorem c4_reason_enum_counterexample :
    ∃ e ∈ (runP envDup cfgPlain).audit_events,
      e.reason = "Validation: too_short" ∧ ¬ e.reason ∈ specReasonEnum := by
  decide

/-- C4, amended. Every audit event `Pipeline.run` appends has a reason drawn
from the closed set {`exact_duplicate`, `semantic_duplicate`,
`Validation: empty_or_null`, `Validation: too_short`} — the code's actual
spellings of the validation reasons; the spec's `validation_empty_or_null`,
`validation_too_short`, `schema_missing_column` and
`sanitization_dropped_null` are never written. -/
theorem c4_reason_enum_amended (env : PipelineEnv) (cfg : RunConfig) :
    ∀ e ∈ (runP env cfg).audit_events, e.reason ∈ dupValReasons := by
  intro e he
  rcases hload : env.load with e0 | input
  · simp only [runP, hload] at he
    simp [mkFail] at he
  · simp only [runP, hload] at he
    by_cases hn : input.texts.length = 0
    · rw [if_pos hn] at he
      simp [mkFail] at he
    · rw [if_neg hn] at he
      rcases hsch : (if cfg.required_columns then env.schemaResult else none)
        with _ | e1
      · rw [hsch] at he
        exact runChunking_events_reasons _ _ _ _ e he
      · rw [hsch] at he
        simp [mkFail] at he

/-- Witness for C4: the first audit event of the `envDup` run is an
`exact_duplicate` event, and the amended theorem applies to it. -/
theorem c4_reason_enum_amended_witness :
    ({ row_index := 2, reason := "exact_duplicate",
       details := "Exact duplicate of original row 0 (hash: aaaaaaaa...)" }
        : AuditEvent) ∈ (runP envDup cfgPlain).audit_events ∧
    ({ row_index := 2, reason := "exact_duplicate",
       details := "Exact duplicate of original row 0 (hash: aaaaaaaa...)" }
        : AuditEvent).reason ∈ dupValReasons :=
  ⟨by decide, c4_reason_enum_amended envDup cfgPlain _ (by decide)⟩

/-! ## Claim C5 -/

/-- C5. Every call to `Pipeline.run` with `chunk_size > 0` that reaches the
chunking step (the input loads, is non-empty, and the schema check passes)
raises `TypeError` constructing `Chunker(chunk_size=..., chunk_overlap=...,
separators=...)` — the dataclass has only the `chunk_size` and
`chunk_overlap` fields — so the run returns `success=False` with that
`TypeError`'s message and never writes output. -/
theorem c5_chunking_always_fails (env : PipelineEnv) (cfg : RunConfig)
    (input : LoadedFrame) (k : Int)
    (hload : env.load = .ok input) (hne : input.texts ≠ [])
    (hsch : cfg.required_columns = true → env.schemaResult = none)
    (hcs : cfg.chunk_size = some k) (hk : 0 < k) :
    (runP env cfg).success = false ∧
    (runP env cfg).error
      = some "Chunker.__init__() got an unexpected keyword argument 'separators'" ∧
    (runP env cfg).written = none := by
  simp only [runP, hload]
  have hn : ¬ input.texts.length = 0 := by
    simpa [List.length_eq_zero] using hne
  rw [if_neg hn]
  have hschval : (if cfg.required_columns then env.schemaResult else none) = none := by
    by_cases h : cfg.required_columns = true
    · rw [if_pos h]
      exact hsch h
    · rw [if_neg h]
  simp only [hschval]
  simp only [runChunking, hcs]
  rw [if_pos hk, chunkerInit_separators]
  exact ⟨rfl, rfl, rfl⟩

/-- Witness for C5: the chunking-enabled configuration `cfgChunked` on the
loadable, non-empty input of `envBase`. -/
theorem c5_chunking_always_fails_witness :
    envBase.load = .ok { texts := [some longText, none], origIndex := none } ∧
    ({ texts := [some longText, none], origIndex := none } : LoadedFrame).texts ≠ [] ∧
    (cfgChunked.required_columns = true → envBase.schemaResult = none) ∧
    cfgChunked.chunk_size = some 5 ∧ (0 : Int) < 5 ∧
    ((runP envBase cfgChunked).success = false ∧
     (runP envBase cfgChunked).error
       = some "Chunker.__init__() got an unexpected keyword argument 'separators'" ∧
     (runP envBase cfgChunked).written = none) :=
  ⟨rfl, by decide, fun _ => rfl, rfl, by decide,
    c5_chunking_always_fails envBase cfgChunked
      { texts := [some longText, none], origIndex := none } 5
      rfl (by decide) (fun _ => rfl) rfl (by decide)⟩

/-! ## Claim C10 -/

/-- C10, counterexample. The claim states that whenever an internal step
raises, the returned dictionary has a non-empty error string. The top-level
handler (`pipeline.py`, lines 487–493) stores `str(e)` verbatim, and an
exception with an empty message — here a bare exception from the external
embedder, `envEmptyErr.findDuplicates` — yields `error = ""`. -/
theorem c10_error_nonempty_counterexample :
    (runP envEmptyErr cfgPlain).success = false ∧
    (runP envEmptyErr cfgPlain).error = some "" := by
  constructor
  · decide
  · decide

/-- C10, amended. `Pipeline.run` never propagates an exception: it always
returns a result with the `success`, `output_path` and `stats` keys (fields
of `RunResult`, with `output_path` always the configured path). On success
there is no `error` key; on failure `error` holds the failing step's
message, which is non-empty provided the messages of exceptions raised by
the external loader and embedder are non-empty — the in-pipeline failure
branches always produce non-empty messages. -/
theorem c10_run_total_amended (env : PipelineEnv) (cfg : RunConfig)
    (hload : ∀ e, env.load = .error e → e ≠ "")
    (hfd : ∀ ts e, env.findDuplicates ts = .error e → e ≠ "") :
    ((runP env cfg).success = true → (runP env cfg).error = none) ∧
    ((runP env cfg).success = false →
      ∃ msg, (runP env cfg).error = some msg ∧ msg ≠ "") ∧
    (runP env cfg).output_path = cfg.output_path := by
  rcases hl : env.load with e | input
  · simp only [runP, hl]
    exact ⟨fun h => by simp [mkFail] at h, fun _ => ⟨e, rfl, hload e hl⟩, rfl⟩
  · simp only [runP, hl]
    by_cases hn : input.texts.length = 0
    · rw [if_pos hn]
      exact ⟨fun h => by simp [mkFail] at h,
        fun _ => ⟨"Input dataset is empty", rfl, by decide⟩, rfl⟩
    · rw [if_neg hn]
      rcases hsch : (if cfg.required_columns then env.schemaResult else none)
        with _ | e1
      · simp only [hsch]
        exact runChunking_error_spec env cfg _ _ hfd
      · simp only [hsch]
        exact ⟨fun h => by simp [mkFail] at h,
          fun _ => ⟨pyOr e1 "Schema validation failed", rfl,
            pyOr_ne_empty e1 (by decide)⟩, rfl⟩

/-- Witness for C10 (amended): at `envBase` (whose loader succeeds and whose
embedder never raises) and `cfgPlain`, applying the theorem. -/
theorem c10_run_total_amended_witness :
    (∀ e, envBase.load = .error e → e ≠ "") ∧
    (∀ ts e, envBase.findDuplicates ts = .error e → e ≠ "") ∧
    (((runP envBase cfgPlain).success = true →
        (runP envBase cfgPlain).error = none) ∧
     ((runP envBase cfgPlain).success = false →
        ∃ msg, (runP envBase cfgPlain).error = some msg ∧ msg ≠ "") ∧
     (runP envBase cfgPlain).output_path = cfgPlain.output_path) := by
  have h1 : ∀ e, envBase.load = .error e → e ≠ "" := by
    intro e h
    cases h
  have h2 : ∀ ts e, envBase.findDuplicates ts = .error e → e ≠ "" := by
    intro ts e h
    cases h
  exact ⟨h1, h2, c10_run_total_amended envBase cfgPlain h1 h2⟩

/-! ## Claim C8 -/

/-- C8, counterexample. The claim states that an invalid startup parameter
makes the process exit with code 2. With `dedup_threshold = 2` (outside
`[0,1]`) the CLI prints the error and returns 1 (`main.py`, lines 285–290),
not 2. -/
theorem c8_exit_code_counterexample :
    cliValidateParams 2 50 none 50 = some 1 ∧
    cliValidateParams 2 50 none 50 ≠ some 2 := by
  constructor
  · decide
  · decide

/-- C8, amended. When a startup parameter is invalid — `dedup_threshold`
outside `[0,1]`, `min_length < 0`, or bad chunking sizes — `main` fails
fast, but with exit code 1, not 2 (every validation branch of `main.py`
returns 1). -/
theorem c8_exit_code_amended (t : ℚ) (m : Int) (cs : Option Int) (co : Int)
    (hbad : ¬ (0 ≤ t ∧ t ≤ 1) ∨ m < 0 ∨
      (∃ k, cs = some k ∧ (k ≤ 0 ∨ co < 0 ∨ co ≥ k))) :
    cliValidateParams t m cs co = some 1 := by
  unfold cliValidateParams
  by_cases h1 : ¬ (0 ≤ t ∧ t ≤ 1)
  · rw [if_pos h1]
  · rw [if_neg h1]
    by_cases h2 : m < 0
    · rw [if_pos h2]
    · rw [if_neg h2]
      rcases hbad with hb | hb | hb
      · exact absurd hb h1
      · exact absurd hb h2
      · obtain ⟨k, hk, hcase⟩ := hb
        subst hk
        show (if k ≤ 0 then some 1
          else if co < 0 then some 1
          else if co ≥ k then some 1 else none) = some 1
        by_cases hk0 : k ≤ 0
        · rw [if_pos hk0]
        · rw [if_neg hk0]
          by_cases hco : co < 0
          · rw [if_pos hco]
          · rw [if_neg hco]
            have hge : co ≥ k := by
              rcases hcase with h | h | h
              · exact absurd h hk0
              · exact absurd h hco
              · exact h
            rw [if_pos hge]

/-- Witness for C8 (amended): the concrete invalid threshold 2. -/
theorem c8_exit_code_amended_witness :
    (¬ ((0 : ℚ) ≤ 2 ∧ (2 : ℚ) ≤ 1) ∨ (50 : Int) < 0 ∨
      (∃ k, (none : Option Int) = some k ∧ (k ≤ 0 ∨ (50 : Int) < 0 ∨ (50 : Int) ≥ k))) ∧
    cliValidateParams 2 50 none 50 = some 1 :=
  ⟨Or.inl (by decide), c8_exit_code_amended 2 50 none 50 (Or.inl (by decide))⟩

/-! ## Claim C9 -/

/-- Column means are non-negative when defined, and default to 0. -/
lemma colMeanD_nonneg (c : PyColumn) : 0 ≤ colMeanD c := by
  rcases hmean : colMean c with _ | avg
  · simp [colMeanD, hmean]
  · rw [colMeanD, hmean, Option.getD_some]
    simp only [colMean] at hmean
    by_cases h : ((c.cells.take 100).filterMap
        (fun v => v.map (fun s => (s.length : ℚ)))) = []
    · rw [if_pos h] at hmean
      cases hmean
    · rw [if_neg h] at hmean
      injection hmean with havg
      rw [← havg]
      apply div_nonneg
      · apply List.sum_nonneg
        intro x hx
        rw [List.mem_filterMap] at hx
        obtain ⟨v, _, hv⟩ := hx
        rcases v with _ | str
        · cases hv
        · have hv2 : ((str.length : ℚ)) = x := by simpa using hv
          rw [← hv2]
          positivity
      · positivity

/-- With no raising column, the monadic detection fold is the pure fold. -/
lemma foldlM_detect_ok (l : List PyColumn)
    (h : ∀ c ∈ l, 0 < (c.cells.take 100).length ∧ (colMean c).isSome)
    (st : String × ℚ) :
    l.foldlM autoDetectStep st = .ok (l.foldl autoDetectPure st) := by
  induction l generalizing st with
  | nil => rfl
  | cons c l ih =>
      obtain ⟨hs, hm⟩ := h c (by simp)
      rcases hmean : colMean c with _ | avg
      · rw [hmean] at hm
        cases hm
      · have hD : colMeanD c = avg := by rw [colMeanD, hmean]; rfl
        have hstep : autoDetectStep st c = .ok (autoDetectPure st c) := by
          rw [autoDetectStep, autoDetectPure, if_neg (by omega), hmean, hD]
          by_cases hgt : avg > st.2 <;> simp [hgt]
        rw [List.foldlM_cons, hstep]
        show List.foldlM autoDetectStep (autoDetectPure st c) l = _
        rw [List.foldl_cons]
        exact ih (fun d hd => h d (by simp [hd])) _

/-- The pure detection fold keeps the first column attaining the maximal
mean (strictly greater values replace; ties keep the earlier column). -/
lemma foldl_detect_spec (l : List PyColumn) (st : String × ℚ) :
    (l.foldl autoDetectPure st = st ∧ ∀ d ∈ l, colMeanD d ≤ st.2) ∨
    (∃ pre c post, l = pre ++ c :: post ∧
      l.foldl autoDetectPure st = (c.name, colMeanD c) ∧
      st.2 < colMeanD c ∧ (∀ d ∈ pre, colMeanD d < colMeanD c) ∧
      (∀ d ∈ post, colMeanD d ≤ colMeanD c)) := by
  induction l generalizing st with
  | nil =>
      left
      exact ⟨rfl, by simp⟩
  | cons a l ih =>
      rw [List.foldl_cons]
      by_cases hgt : colMeanD a > st.2
      · have hstep : autoDetectPure st a = (a.name, colMeanD a) := by
          rw [autoDetectPure, if_pos hgt]
        rw [hstep]
        rcases ih (a.name, colMeanD a) with ⟨heq, hle⟩ |
          ⟨pre, c, post, hl, heq, hlt, hpre, hpost⟩
        · right
          refine ⟨[], a, l, rfl, heq, hgt, by simp, ?_⟩
          intro d hd
          simpa using hle d hd
        · right
          have hlt2 : colMeanD a < colMeanD c := by simpa using hlt
          refine ⟨a :: pre, c, post, by rw [hl, List.cons_append], heq,
            lt_trans hgt hlt2, ?_, hpost⟩
          intro d hd
          rcases List.mem_cons.mp hd with rfl | hd
          · exact hlt2
          · exact hpre d hd
      · have hstep : autoDetectPure st a = st := by
          rw [autoDetectPure, if_neg hgt]
        rw [hstep]
        rcases ih st with ⟨heq, hle⟩ | ⟨pre, c, post, hl, heq, hlt, hpre, hpost⟩
        · left
          refine ⟨heq, ?_⟩
          intro d hd
          rcases List.mem_cons.mp hd with rfl | hd
          · exact not_lt.mp hgt
          · exact hle d hd
        · right
          refine ⟨a :: pre, c, post, by rw [hl, List.cons_append], heq, hlt, ?_,
            hpost⟩
          intro d hd
          rcases List.mem_cons.mp hd with rfl | hd
          · exact lt_of_le_of_lt (not_lt.mp hgt) hlt
          · exact hpre d hd

/-- C9. When `--text-column` is omitted, `main` selects from the 100-row
sample the string (`Utf8`) column with the largest average character
length; on ties the earlier column in column order wins (the loop replaces
the running best only on a strictly greater average). Hypotheses: at least
one string column, each with a non-empty sample and at least one non-null
sampled value (otherwise the code errors out with exit 1). -/
theorem c9_text_column_autodetect (cols : List PyColumn)
    (hne : cols.filter (fun c => c.isUtf8) ≠ [])
    (h : ∀ c ∈ cols.filter (fun c => c.isUtf8),
      0 < (c.cells.take 100).length ∧ (colMean c).isSome) :
    ∃ pre c post, cols.filter (fun c => c.isUtf8) = pre ++ c :: post ∧
      autoDetectTextColumn cols = .ok c.name ∧
      (∀ d ∈ pre, colMeanD d < colMeanD c) ∧
      (∀ d ∈ post, colMeanD d ≤ colMeanD c) := by
  rcases hfil : cols.filter (fun c => c.isUtf8) with _ | ⟨c0, rest⟩
  · exact absurd hfil hne
  · rw [hfil] at h
    have hfold := foldlM_detect_ok (c0 :: rest) h (c0.name, -1)
    rcases foldl_detect_spec (c0 :: rest) (c0.name, -1) with ⟨heq, hle⟩ |
      ⟨pre, c, post, hl, heq, hlt, hpre, hpost⟩
    · exfalso
      have h0 := hle c0 (by simp)
      have h1 := colMeanD_nonneg c0
      simp only at h0
      linarith
    · refine ⟨pre, c, post, hfil.trans hl, ?_, hpre, hpost⟩
      simp only [autoDetectTextColumn, hfil, hfold, heq]

/-- Witness for C9: on `colsSample` the detector picks `"text"` (average
length 6) over `"tag"` (average length 2), skipping the non-string `"id"`. -/
theorem c9_text_column_autodetect_witness :
    (colsSample.filter (fun c => c.isUtf8) ≠ []) ∧
    (∀ c ∈ colsSample.filter (fun c => c.isUtf8),
      0 < (c.cells.take 100).length ∧ (colMean c).isSome) ∧
    (∃ pre c post, colsSample.filter (fun c => c.isUtf8) = pre ++ c :: post ∧
      autoDetectTextColumn colsSample = .ok c.name ∧
      (∀ d ∈ pre, colMeanD d < colMeanD c) ∧
      (∀ d ∈ post, colMeanD d ≤ colMeanD c)) :=
  ⟨by decide, by decide,
    c9_text_column_autodetect colsSample (by decide) (by decide)⟩

end EntropyGuard

namespace EntropyGuard

/-- C1. The claim states that the radius passed to the vector index's
duplicate search equals `2 * (1 - s)` exactly, without a square root, for
every `dedup_threshold` in `[0, 1]`. The code (`pipeline.py`, line 317)
computes `(2 * (1 - s)) ** 0.5`; at the default threshold `s = 0.95 = 19/20`
the two differ, so the code contradicts the claim (and the spec's own §4.7
mandate, which calls the square-root form a historical bug). -/
theorem c1_threshold_sqrt_bug :
    distanceThreshold (19/20) ≠ 2 * (1 - (19/20 : ℝ)) := by
  have ha : (2 : ℝ) * (1 - 19/20) = 1/10 := by norm_num
  intro h
  rw [distanceThreshold, ha] at h
  have h2 : Real.sqrt (1/10) ^ 2 = 1/10 := Real.sq_sqrt (by norm_num)
  rw [h] at h2
  norm_num at h2

/-- C6. The claim states that concatenating the chunks returned by
`Chunker.split_text`, with the `chunk_overlap`-character overlaps removed,
reproduces the input text. Counterexample: `split_text("aaaa")` with
`chunk_size = 2, chunk_overlap = 1` returns `["aa", "a aa"]` — the second
chunk has a space inserted after the overlap — and removing the 1-character
overlap yields `"aa aa" ≠ "aaaa"`. This contradicts the repository's own
test suite (`tests/test_chunking.py::test_hard_split_continuous_text`
asserts exact reconstruction for separator-free text). -/
theorem c6_overlap_reconstruction_bug :
    splitText 2 1 "aaaa".data = ["aa".data, "a aa".data] ∧
      overlapConcat 1 (splitText 2 1 "aaaa".data) ≠ "aaaa".data := by
  constructor
  · decide
  · decide

/-- C7. The claim states that with any valid configuration
(`0 ≤ chunk_overlap < chunk_size`) every chunk returned by
`Chunker.split_text` has length at most `chunk_size`. Counterexample:
with `chunk_size = 3, chunk_overlap = 1`, `split_text("ab\n\ncd")` returns
`["ab", "b cd"]` and the second chunk has length `4 > 3` (the overlap plus
an inserted space exceed the budget). This contradicts the method's own
docstring ("Build chunks of at most `chunk_size` chars") and the
repository's test suite, which asserts `len(chunk) <= chunk_size`. -/
theorem c7_chunk_size_bound_bug :
    splitText 3 1 "ab\n\ncd".data = ["ab".data, "b cd".data] ∧
      ∃ c ∈ splitText 3 1 "ab\n\ncd".data, 3 < c.length := by
  constructor
  · decide
  · decide

end EntropyGuard
